import Mathlib

/-!
# Leap second data parsing (package `leapseconds`, `main.go`)

A shallow embedding of the two text parsers of the package and of the
`Information` accessors, together with the standard-library routines they call.

Conventions of the embedding:

* a Go `string` / `[]byte` holding text is a `List Char` (the text is taken to be
  valid UTF-8; lengths that Go measures in bytes are computed with `byteLen`);
* a Go `time.Time` built by `time.Date(.., time.UTC)` is its Unix time in seconds;
* a Go `error` is a value of `GoError`, `errors.Wrap` being the constructor `wrap`;
* a Go function returning `(*T, error)` returns a `Res T`, whose third
  constructor `panic` records a run-time panic (index out of range);
* `strconv.ParseFloat` is a parameter `pf` of the development: `float64` is kept
  abstract as a type `F`.
-/

namespace Leapseconds

/-! ## Errors and results -/

/-- The two sentinel causes of a `strconv.NumError`: `ErrSyntax` and `ErrRange`. -/
inductive NumErrKind
  | errSyntax
  | errRange
  deriving DecidableEq

/-- Go error values that the package can return. -/
inductive GoError
  /-- A value made by `errors.New`. -/
  | errorsNew (msg : List Char)
  /-- A `*strconv.NumError` with its `Func`, `Num` and `Err` fields. -/
  | numError (func : List Char) (num : List Char) (kind : NumErrKind)
  /-- A `*time.ParseError` for the given layout and value. -/
  | timeParseError (layout : List Char) (value : List Char)
  /-- The error `bufio.ErrTooLong` ("bufio.Scanner: token too long"). -/
  | errTooLong
  /-- The result of `errors.Wrap(cause, msg)` / `errors.Wrapf`. -/
  | wrap (cause : GoError) (msg : List Char)
  deriving DecidableEq

/-- Outcome of a Go function of type `(*T, error)`: a value with a nil error, a nil
value with an error, or a run-time panic. -/
inductive Res (α : Type)
  | ok (a : α)
  | err (e : GoError)
  | panic
  deriving DecidableEq

deriving instance DecidableEq for Except

/-- The constant `notScheduled`. -/
def notScheduled : List Char := "Not scheduled".toList

/-- The variable `ErrParsing`. -/
def ErrParsing : GoError := .errorsNew "parsing error".toList

/-- The variable `ErrInvalidScheduledEntry`. -/
def ErrInvalidScheduledEntry : GoError := .wrap ErrParsing "scheduled leap second data".toList

/-- The variable `ErrInvalidLeapSecondData`. -/
def ErrInvalidLeapSecondData : GoError :=
  .wrap ErrParsing "wrong numbeer of leap second data points".toList

/-! ## Standard library: `strings`, `strconv`, `unicode` -/

/-- Go `unicode.IsSpace`: the Latin-1 spaces and the `White_Space` property table. -/
def isSpace (c : Char) : Bool :=
  let n := c.toNat
  (0x09 ≤ n && n ≤ 0x0d) || n == 0x20 || n == 0x85 || n == 0xa0 || n == 0x1680 ||
  (0x2000 ≤ n && n ≤ 0x200a) || n == 0x2028 || n == 0x2029 || n == 0x202f ||
  n == 0x205f || n == 0x3000

/-- Loop of `strings.Fields`: `cur` is the field being read (empty between fields). -/
def fieldsGo : List Char → List Char → List (List Char)
  | [], cur => if cur = [] then [] else [cur]
  | c :: cs, cur =>
    if isSpace c then
      (if cur = [] then fieldsGo cs [] else cur :: fieldsGo cs [])
    else fieldsGo cs (cur ++ [c])

/-- Go `strings.Fields`: the maximal runs of non-space characters, in order. -/
def Fields (s : List Char) : List (List Char) := fieldsGo s []

/-- Go `strings.Split(s, sep)` for a separator of one character: the pieces between
the occurrences of `sep`; there is always at least one piece. -/
def Split (sep : Char) : List Char → List (List Char)
  | [] => [[]]
  | c :: cs =>
    if c = sep then [] :: Split sep cs
    else
      match Split sep cs with
      | [] => [[c]]
      | p :: ps => (c :: p) :: ps

/-- Digit value of a character in `strconv.ParseUint`: `'0'..'9'` are 0..9, letters
are 10..35 in either case, anything else is not a digit. -/
def digitOf (c : Char) : Option Nat :=
  let n := c.toNat
  if 0x30 ≤ n ∧ n ≤ 0x39 then some (n - 0x30)
  else if 0x61 ≤ n ∧ n ≤ 0x7a then some (n - 0x61 + 10)
  else if 0x41 ≤ n ∧ n ≤ 0x5a then some (n - 0x41 + 10)
  else none

/-- The digit loop of `strconv.ParseUint` over `uint64` (additions are taken modulo
`2^64`, as the source tests for the wrap-around). -/
def parseUintLoop (base maxVal cutoff : Nat) : List Char → Nat → Except NumErrKind Nat
  | [], n => .ok n
  | c :: cs, n =>
    match digitOf c with
    | none => .error .errSyntax
    | some d =>
      if base ≤ d then .error .errSyntax
      else if cutoff ≤ n then .error .errRange
      else
        let nb := (n * base) % 2 ^ 64
        let n1 := (nb + d) % 2 ^ 64
        if n1 < nb ∨ maxVal < n1 then .error .errRange
        else parseUintLoop base maxVal cutoff cs n1

/-- Go `strconv.ParseUint(s, base, bitSize)` for an explicit base `2..36` and
`1 ≤ bitSize ≤ 64`: the value, or a `*NumError` carrying `s`. -/
def ParseUint (s : List Char) (base bitSize : Nat) : Except GoError Nat :=
  if s = [] then .error (.numError "ParseUint".toList s .errSyntax)
  else
    match parseUintLoop base (2 ^ bitSize - 1) ((2 ^ 64 - 1) / base + 1) s 0 with
    | .ok n => .ok n
    | .error k => .error (.numError "ParseUint".toList s k)

/-! ## Standard library: `time` -/

/-- Go `time.isLeap`. -/
def isLeap (year : Int) : Bool :=
  year % 4 == 0 && (year % 100 != 0 || year % 400 == 0)

/-- Go `time.daysBefore`: days in the non-leap year before month `m + 1` starts. -/
def daysBefore (m : Nat) : Int :=
  match m with
  | 0 => 0
  | 1 => 31
  | 2 => 59
  | 3 => 90
  | 4 => 120
  | 5 => 151
  | 6 => 181
  | 7 => 212
  | 8 => 243
  | 9 => 273
  | 10 => 304
  | 11 => 334
  | _ => 365

/-- Days from 1 January 1970 to 1 January of `year` in the proleptic Gregorian
calendar (Go `daysSinceEpoch`, rebased from the absolute epoch to the Unix one). -/
def daysSinceEpoch (year : Int) : Int :=
  let y := year - 1
  365 * (year - 1970) + (y / 4 - y / 100 + y / 400) - (1969 / 4 - 1969 / 100 + 1969 / 400)

/-- Go `time.Date(year, month, day, hour, min, sec, 0, time.UTC)` as Unix seconds.
The month is normalised into `1..12` by carrying into the year; day, hour, minute
and second are added linearly, which is what the normalisation of the source
amounts to. -/
def timeDate (year month day hour min sec : Int) : Int :=
  let m := month - 1
  let year := year + m / 12
  let m := m % 12
  let d := daysSinceEpoch year + daysBefore m.toNat +
    (if isLeap year && 2 ≤ m then 1 else 0) + (day - 1)
  d * 86400 + hour * 3600 + min * 60 + sec

/-- Go `time.daysIn(m, year)` for a month `m` in `1..12`. -/
def daysIn (m : Nat) (year : Int) : Int :=
  if m = 2 ∧ isLeap year then 29 else daysBefore m - daysBefore (m - 1)

/-- Go `time.longMonthNames`. -/
def longMonthNames : List (List Char) :=
  ["January".toList, "February".toList, "March".toList, "April".toList, "May".toList,
   "June".toList, "July".toList, "August".toList, "September".toList, "October".toList,
   "November".toList, "December".toList]

/-- ASCII decimal digit test (`time.isDigit`). -/
def isDigit (c : Char) : Bool := 0x30 ≤ c.toNat && c.toNat ≤ 0x39

/-- One character comparison of `time.match`: equal, or equal letters up to case. -/
def matchChar (c1 c2 : Char) : Bool :=
  c1 == c2 ||
    ((c1.toNat ||| 0x20) == (c2.toNat ||| 0x20) &&
      0x61 ≤ (c1.toNat ||| 0x20) && (c1.toNat ||| 0x20) ≤ 0x7a)

/-- Prefix test of `time.lookup`: `name` matches the start of `value` up to case; the
rest of `value` is returned. -/
def matchPrefix : List Char → List Char → Option (List Char)
  | [], value => some value
  | _ :: _, [] => none
  | n :: ns, v :: vs => if matchChar v n then matchPrefix ns vs else none

/-- Go `time.lookup(tab, val)`: index of the first name of `tab` that starts `val`,
counted from `i`, with the rest of `val`. -/
def lookup : List (List Char) → Nat → List Char → Option (Nat × List Char)
  | [], _, _ => none
  | name :: tab, i, value =>
    match matchPrefix name value with
    | some rest => some (i, rest)
    | none => lookup tab (i + 1) value

/-- Go `time.cutspace`: drop the leading blanks. -/
def cutspace : List Char → List Char
  | [] => []
  | c :: cs => if c = ' ' then cutspace cs else c :: cs

/-- Go `time.skip(value, " ")`: a blank of the layout stands for any run of blanks,
also an empty one at the end of the value. -/
def skipSpace (value : List Char) : Option (List Char) :=
  match value with
  | [] => some []
  | c :: cs => if c = ' ' then some (cutspace cs) else none

/-- The layout string of both date fields. -/
def dateLayout : List Char := "02 January 2006".toList

/-- The steps of `time.Parse("02 January 2006", value)` up to the validation of the
day: two digits, blanks, a month name, blanks, four digits, nothing more. The result
is `(year, month, day)`. -/
def parseDateFields (value : List Char) : Option (Nat × Nat × Nat) :=
  match value with
  | d1 :: d2 :: v1 =>
    if isDigit d1 && isDigit d2 then
      let day := (d1.toNat - 0x30) * 10 + (d2.toNat - 0x30)
      match skipSpace v1 with
      | none => none
      | some v2 =>
        match lookup longMonthNames 0 v2 with
        | none => none
        | some (mi, v3) =>
          match skipSpace v3 with
          | none => none
          | some v4 =>
            match v4 with
            | [y1, y2, y3, y4] =>
              if isDigit y1 && isDigit y2 && isDigit y3 && isDigit y4 then
                some ((y1.toNat - 0x30) * 1000 + (y2.toNat - 0x30) * 100 +
                  (y3.toNat - 0x30) * 10 + (y4.toNat - 0x30), mi + 1, day)
              else none
            | _ => none
    else none
  | _ => none

/-- Go `time.Parse("02 January 2006", value)`: the parsed date at UTC midnight, or a
`*time.ParseError`; the day must exist in its month. -/
def timeParse (value : List Char) : Except GoError Int :=
  match parseDateFields value with
  | none => .error (.timeParseError dateLayout value)
  | some (year, month, day) =>
    if day < 1 ∨ daysIn month year < day then .error (.timeParseError dateLayout value)
    else .ok (timeDate year month day 0 0 0)

/-! ## Standard library: `bufio.Scanner` with `ScanLines` -/

/-- Go `bufio.MaxScanTokenSize`: the size limit of the scanner's buffer. -/
def MaxScanTokenSize : Nat := 64 * 1024

/-- Length in bytes of the UTF-8 encoding of a text (Go `len`). -/
def byteLen (s : List Char) : Nat := (s.map Char.utf8Size).sum

/-- The lines that `bufio.ScanLines` cuts out of a text, before the carriage return
is dropped: the pieces ended by a line feed, and a last piece without line feed when
it is not empty. -/
def rawLines : List Char → List (List Char)
  | [] => []
  | c :: cs =>
    if c = '\n' then [] :: rawLines cs
    else
      match rawLines cs with
      | [] => [[c]]
      | l :: ls => (c :: l) :: ls

/-- Go `bufio.dropCR`: drop one carriage return at the end of a line. -/
def dropCR : List Char → List Char
  | [] => []
  | [c] => if c = '\r' then [] else [c]
  | c :: d :: cs => c :: dropCR (d :: cs)

/-- One call of `Scanner.Scan` on a line of `rawLines`: a line of `MaxScanTokenSize`
bytes or more cannot be held in the buffer before its line feed is seen, the scanner
stops and `Scanner.Err` is `ErrTooLong`; otherwise the token is the line without its
carriage return. -/
def scanToken (raw : List Char) : Except GoError (List Char) :=
  if MaxScanTokenSize ≤ byteLen raw then .error .errTooLong else .ok (dropCR raw)

/-! ## The scheduled record (`lastEntry`) -/

/-- The struct `lastEntry`; `next` is a pointer that may be nil. -/
structure lastEntry where
  taiOffset : Nat
  last : Int
  next : Option Int
  deriving DecidableEq

/-- The function `newLastEntryFromString`. -/
def newLastEntryFromString (line : List Char) : Res lastEntry :=
  let items := Split '|' line
  if items.length ≠ 3 then .err ErrInvalidScheduledEntry
  else
    match items[0]?, items[1]?, items[2]? with
    | some i0, some i1, some i2 =>
      match ParseUint i0 10 16 with
      | .error e => .err (.wrap e ("parsing TAI offset field containing ".toList ++ i0))
      | .ok rtai =>
        match timeParse i1 with
        | .error e => .err (.wrap e ("parsing last leap second date containing ".toList ++ i1))
        | .ok last =>
          if i2 ≠ notScheduled then
            match timeParse i2 with
            | .error e =>
              .err (.wrap e ("parsing next scheduled leap second date containing ".toList ++ i2))
            | .ok next => .ok { taiOffset := rtai % 2 ^ 16, last := last, next := some next }
          else .ok { taiOffset := rtai % 2 ^ 16, last := last, next := none }
    | _, _, _ => .panic

/-- The function `parseScheduled` on a body that is read without I/O error: only the
first line of the body is looked at. -/
def parseScheduled (body : List Char) : Res lastEntry :=
  match rawLines body with
  | [] => newLastEntryFromString []
  | raw :: _ =>
    match scanToken raw with
    | .error e => .err e
    | .ok line => newLastEntryFromString line

/-! ## The historical records (`leapSecondData`) -/

/-- The struct `leapSecondData`; `F` stands for `float64`. -/
structure leapSecondData (F : Type) where
  mjd : F
  day : Nat
  month : Nat
  year : Nat
  taiOffset : Nat
  Date : Int
  deriving DecidableEq

/-- The method `updateDate`: midnight UTC of the stored date, one second earlier. -/
def leapSecondData.updateDate {F : Type} (l : leapSecondData F) : leapSecondData F :=
  { l with Date := timeDate l.year l.month l.day 0 0 0 + (-1) * 1 }

/-- The function `newLeapSecondDataFromItems`. Each `items[i]` is read when its field
is reached, and panics when `i` is out of range. -/
def newLeapSecondDataFromItems {F : Type} (pf : List Char → Except NumErrKind F)
    (items : List (List Char)) : Res (leapSecondData F) :=
  match items[0]? with
  | none => .panic
  | some i0 =>
  match pf i0 with
  | .error k =>
    .err (.wrap (.numError "ParseFloat".toList i0 k) ("parsing MJD field containing ".toList ++ i0))
  | .ok mjd =>
  match items[1]? with
  | none => .panic
  | some i1 =>
  match ParseUint i1 10 8 with
  | .error e => .err (.wrap e ("parsing day field containing ".toList ++ i1))
  | .ok rday =>
  match items[2]? with
  | none => .panic
  | some i2 =>
  match ParseUint i2 10 8 with
  | .error e => .err (.wrap e ("parsing month field containing ".toList ++ i2))
  | .ok rmonth =>
  match items[3]? with
  | none => .panic
  | some i3 =>
  match ParseUint i3 10 16 with
  | .error e => .err (.wrap e ("parsing year field containing ".toList ++ i3))
  | .ok ryear =>
  match items[4]? with
  | none => .panic
  | some i4 =>
  match ParseUint i4 10 16 with
  | .error e => .err (.wrap e ("parsing TAI offset field containing ".toList ++ i4))
  | .ok rtai =>
    .ok (leapSecondData.updateDate
      { mjd := mjd, day := rday % 2 ^ 8, month := rmonth % 2 ^ 8, year := ryear % 2 ^ 16,
        taiOffset := rtai % 2 ^ 16, Date := 0 })

/-- The function `newLeapSecondDataFromString`. -/
def newLeapSecondDataFromString {F : Type} (pf : List Char → Except NumErrKind F)
    (line : List Char) : Res (leapSecondData F) :=
  let items := Fields line
  if items.length ≠ 5 then .err ErrInvalidLeapSecondData
  else newLeapSecondDataFromItems pf items

/-- The regular expression `(?s)#.*?$` replaced by nothing: without the `m` flag `$`
only matches at the end of the text, so the one match runs from the first `#` to the
end of the line. -/
def stripComment (line : List Char) : List Char := line.takeWhile (fun c => c != '#')

/-- Outcome of `parseDataFile`: the slice and the error it returns, or a panic. -/
inductive FileRes (α : Type)
  | ret (rv : List α) (err : Option GoError)
  | panic
  deriving DecidableEq

/-- The scanner loop of `parseDataFile` over the remaining lines, `rv` being the
entries appended so far. -/
def parseLines {F : Type} (pf : List Char → Except NumErrKind F) :
    List (List Char) → List (leapSecondData F) → FileRes (leapSecondData F)
  | [], rv => .ret rv none
  | raw :: rest, rv =>
    match scanToken raw with
    | .error e => .ret rv (some e)
    | .ok token =>
      let items := Fields (stripComment token)
      if items.length > 0 then
        match newLeapSecondDataFromItems pf items with
        | .err e => .ret rv (some e)
        | .panic => .panic
        | .ok lsd => parseLines pf rest (rv ++ [lsd])
      else parseLines pf rest rv

/-- The function `parseDataFile` on a body that is read without I/O error. -/
def parseDataFile {F : Type} (pf : List Char → Except NumErrKind F) (body : List Char) :
    FileRes (leapSecondData F) :=
  parseLines pf (rawLines body) []

/-! ## The `Information` snapshot -/

/-- The struct `Information`, without its HTTP client. -/
structure Information (F : Type) where
  EmbeddedFailover : Bool
  scheduledURI : List Char
  scheduled : lastEntry
  historicalURI : List Char
  historical : List (leapSecondData F)
  deriving DecidableEq

/-- The constant `ScheduledURL`. -/
def ScheduledURL : List Char :=
  "https://hpiers.obspm.fr/eop-pc/webservice/CURL/leapSecond.php".toList

/-- The constant `DataSourceURL`. -/
def DataSourceURL : List Char := "https://hpiers.obspm.fr/iers/bul/bulc/Leap_Second.dat".toList

/-- The function `New`: the other fields have their zero value (the zero `time.Time`
is 1 January of year 1). -/
def New (F : Type) : Information F :=
  { EmbeddedFailover := false
    scheduledURI := ScheduledURL
    scheduled := { taiOffset := 0, last := timeDate 1 1 1 0 0 0, next := none }
    historicalURI := DataSourceURL
    historical := [] }

/-- The method `All`: the loop appends the `Date` of each entry in turn. -/
def Information.All {F : Type} (i : Information F) : List Int :=
  i.historical.foldl (fun rv e => rv ++ [e.Date]) []

/-! ## An instance of the float parser for concrete lines -/

/-- Digits of a plain decimal literal: the value of the digits read so far and the
number of digits after the point (`none` before the point). -/
def exactDecimalLoop : List Char → Nat → Option Nat → Except NumErrKind (Nat × Nat)
  | [], n, frac => .ok (n, frac.getD 0)
  | c :: cs, n, frac =>
    if c = '.' then
      (match frac with
       | none => exactDecimalLoop cs n (some 0)
       | some _ => .error .errSyntax)
    else if isDigit c then
      exactDecimalLoop cs (n * 10 + (c.toNat - 0x30)) (frac.map (fun k => k + 1))
    else .error .errSyntax

/-- A float parser for the parameter `pf`, used on concrete inputs. It accepts the
unsigned literals `digits` and `digits.digits` of at most 15 digits, which
`strconv.ParseFloat` also accepts, and returns the pair `(n, k)` for the number
`n / 10^k`; it rejects every other text. -/
def exactDecimal (s : List Char) : Except NumErrKind (Nat × Nat) :=
  match s with
  | [] => .error .errSyntax
  | c :: _ =>
    if isDigit c ∧ s.length ≤ 16 then exactDecimalLoop s 0 none else .error .errSyntax

/-! ## Well-formed fields, in the words of the specification -/

/-- The character that writes the decimal digit `k < 10`. -/
def digitChar (k : Nat) : Char := Char.ofNat (0x30 + k)

/-- Value of a decimal numeral given by its digits, most significant digit first. -/
def decimalValue (ds : List Nat) : Nat := ds.foldl (fun n d => 10 * n + d) 0

/-- Text of a decimal numeral given by its digits. -/
def decimalText (ds : List Nat) : List Char := ds.map digitChar

/-- Number of days of month `m` of year `y` in the Gregorian calendar. -/
def monthDays (y m : Nat) : Nat :=
  if m = 2 then (if y % 4 = 0 ∧ (y % 100 ≠ 0 ∨ y % 400 = 0) then 29 else 28)
  else if m = 4 ∨ m = 6 ∨ m = 9 ∨ m = 11 then 30
  else 31

/-- A date of the calendar whose year can be written with four digits. -/
def validDate (d m y : Nat) : Prop :=
  1 ≤ m ∧ m ≤ 12 ∧ 1 ≤ d ∧ d ≤ monthDays y m ∧ y ≤ 9999

/-- The full English name of month `m`. -/
def monthName (m : Nat) : List Char :=
  match m with
  | 1 => "January".toList
  | 2 => "February".toList
  | 3 => "March".toList
  | 4 => "April".toList
  | 5 => "May".toList
  | 6 => "June".toList
  | 7 => "July".toList
  | 8 => "August".toList
  | 9 => "September".toList
  | 10 => "October".toList
  | 11 => "November".toList
  | 12 => "December".toList
  | _ => []

/-- A date written as two-digit day, full month name and four-digit year, with one
blank between the parts, as in `31 December 2016`. -/
def formatDate (d m y : Nat) : List Char :=
  digitChar (d / 10) :: digitChar (d % 10) :: ' ' :: (monthName m ++
    [' ', digitChar (y / 1000), digitChar (y / 100 % 10), digitChar (y / 10 % 10),
      digitChar (y % 10)])

/-- A scheduled line `<offset>|<last>|<third>`. -/
def scheduledLine (offset last third : List Char) : List Char :=
  offset ++ '|' :: (last ++ '|' :: third)

/-- A line that holds no record: every character before its first `#`, or of the whole
line when it has none, is white space (an empty line, a white-space line, or optional
white space followed by a comment). -/
def blankLine (l : List Char) : Bool := (l.takeWhile (fun c => c != '#')).all isSpace

/-- A position between two lines of a text: the text before it is empty or ends with a
line feed. -/
def endsLines (pre : List Char) : Prop := pre = [] ∨ pre.getLast? = some '\n'

/-- The end of a line in a text: what follows is nothing or starts with a line feed. -/
def startsLine (post : List Char) : Prop := post = [] ∨ post.head? = some '\n'

/-- The record of a line in the sense of the specification: the parse, by
`newLeapSecondDataFromString`, of the line without its comment, when it succeeds. -/
def recordOf {F : Type} (pf : List Char → Except NumErrKind F) (l : List Char) :
    Option (leapSecondData F) :=
  match newLeapSecondDataFromString pf (l.takeWhile (fun c => c != '#')) with
  | .ok e => some e
  | _ => none

/-! ## Fetching and loading -/

/-- The function `fetchDataFileFromReader`: the entries are dropped when
`parseDataFile` returns an error. -/
def fetchDataFileFromReader {F : Type} (pf : List Char → Except NumErrKind F)
    (src : List Char) : Res (List (leapSecondData F)) :=
  match parseDataFile pf src with
  | .panic => .panic
  | .ret _ (some e) => .err e
  | .ret parsed none => .ok parsed

/-- The function `fetchDataFileFromURL`. The HTTP client is a function `client` that
gives, for a URL, the error of building or sending the request, or the body of the
response. -/
def fetchDataFileFromURL {F : Type} (pf : List Char → Except NumErrKind F)
    (client : List Char → Except GoError (List Char)) (url : List Char) :
    Res (List (leapSecondData F)) :=
  match client url with
  | .error e => .err e
  | .ok body => fetchDataFileFromReader pf body

/-- The function `fetchDataFileFromEmbedded`; the embedded file
`assets/Leap_Second.dat` is the parameter `embedded`. -/
def fetchDataFileFromEmbedded {F : Type} (pf : List Char → Except NumErrKind F)
    (embedded : List Char) : Res (List (leapSecondData F)) :=
  fetchDataFileFromReader pf embedded

/-- The function `fetchScheduledFromURL`. -/
def fetchScheduledFromURL (client : List Char → Except GoError (List Char))
    (url : List Char) : Res lastEntry :=
  match client url with
  | .error e => .err e
  | .ok body => parseScheduled body

/-- Outcome of a method of `*Information`: the snapshot after the call and the error
returned, or a panic; `fetched` lists the URLs that were handed to a fetch function, in
order. -/
inductive Run (F : Type)
  | done (i : Information F) (fetched : List (List Char)) (err : Option GoError)
  | panic (fetched : List (List Char))
  deriving DecidableEq

/-- The method `loadHistorical`. The result of the network fetch is assigned to
`i.historical` before the error is looked at, so a failed fetch stores a nil slice. -/
def Information.loadHistorical {F : Type} (pf : List Char → Except NumErrKind F)
    (client : List Char → Except GoError (List Char)) (embedded : List Char)
    (i : Information F) : Run F :=
  match fetchDataFileFromURL pf client i.historicalURI with
  | .panic => .panic [i.historicalURI]
  | .ok rv => .done { i with historical := rv } [i.historicalURI] none
  | .err e =>
    if !i.EmbeddedFailover then .done { i with historical := [] } [i.historicalURI] (some e)
    else
      match fetchDataFileFromEmbedded pf embedded with
      | .panic => .panic [i.historicalURI]
      | .ok rv => .done { i with historical := rv } [i.historicalURI] none
      | .err e2 => .done { i with historical := [] } [i.historicalURI] (some e2)

/-- The method `loadScheduled`. -/
def Information.loadScheduled {F : Type} (client : List Char → Except GoError (List Char))
    (i : Information F) : Run F :=
  match fetchScheduledFromURL client i.scheduledURI with
  | .panic => .panic [i.scheduledURI]
  | .err e => .done i [i.scheduledURI] (some e)
  | .ok got => .done { i with scheduled := got } [i.scheduledURI] none

/-- The method `Load`. -/
def Information.Load {F : Type} (pf : List Char → Except NumErrKind F)
    (client : List Char → Except GoError (List Char)) (embedded : List Char)
    (i : Information F) : Run F :=
  match i.loadHistorical pf client embedded with
  | .panic fetched => .panic fetched
  | .done i1 fetched (some e) => .done i1 fetched (some e)
  | .done i1 fetched none =>
    match i1.loadScheduled client with
    | .panic fetched2 => .panic (fetched ++ fetched2)
    | .done i2 fetched2 err => .done i2 (fetched ++ fetched2) err

/-! ## Field errors, in the words of the specification -/

/-- A text that writes a decimal unsigned integer fitting in 16 bits. -/
def isUint16Text (a : List Char) : Prop :=
  ∃ ds : List Nat, ds ≠ [] ∧ (∀ d ∈ ds, d < 10) ∧ decimalValue ds ≤ 65535 ∧ a = decimalText ds

/-- The variable `strconv.ErrSyntax`. -/
def ErrSyntax : GoError := .errorsNew "invalid syntax".toList

/-- The variable `strconv.ErrRange`. -/
def ErrRange : GoError := .errorsNew "value out of range".toList

/-- The `Err` field of a `*strconv.NumError`, which its `Unwrap` returns. -/
def NumErrKind.err : NumErrKind → GoError
  | .errSyntax => ErrSyntax
  | .errRange => ErrRange

/-- A node of the chain that `errors.Is` walks with `Unwrap`: an error value, or the
`*withMessage` that `errors.Wrap` puts between the `*withStack` it returns and the
cause. -/
inductive ChainNode
  | error (e : GoError)
  | withMessage (cause : GoError) (msg : List Char)
  deriving DecidableEq

/-- The cause chain of an error: the error, then what `Unwrap` gives, and so on. The
value of `errors.Wrap` unwraps to its `*withMessage` and then to the cause, a
`*strconv.NumError` unwraps to its `Err`, the other errors unwrap to nothing. -/
def causeChain : GoError → List ChainNode
  | .wrap cause msg => .error (.wrap cause msg) :: .withMessage cause msg :: causeChain cause
  | .numError func num kind => [.error (.numError func num kind), .error kind.err]
  | e => [.error e]

/-- Name of field `k` of a historical record in the messages of
`newLeapSecondDataFromItems`. -/
def fieldName (k : Nat) : List Char :=
  match k with
  | 0 => "MJD".toList
  | 1 => "day".toList
  | 2 => "month".toList
  | 3 => "year".toList
  | _ => "TAI offset".toList

/-- The error of parsing the token `t` as field `k` of a historical record at the width
of that field, `none` when it parses: float for MJD, 8 bits for day and month, 16 bits
for year and TAI offset. -/
def fieldError {F : Type} (pf : List Char → Except NumErrKind F) (k : Nat) (t : List Char) :
    Option GoError :=
  match k with
  | 0 =>
    (match pf t with
     | .ok _ => none
     | .error kind => some (.numError "ParseFloat".toList t kind))
  | 1 | 2 =>
    (match ParseUint t 10 8 with
     | .ok _ => none
     | .error e => some e)
  | _ =>
    (match ParseUint t 10 16 with
     | .ok _ => none
     | .error e => some e)

/-- Calendar order on dates given as `(year, month, day)`. -/
def dateBefore (a b : Nat × Nat × Nat) : Prop :=
  a.1 < b.1 ∨ (a.1 = b.1 ∧ (a.2.1 < b.2.1 ∨ (a.2.1 = b.2.1 ∧ a.2.2 < b.2.2)))

/-- Days from 1 January 1970 to day `d` of month `m` of year `y`, as `time.Date` counts
them for a month in `1..12`. -/
def dayNumber (y m d : Nat) : Int :=
  daysSinceEpoch y + daysBefore (m - 1) + (if isLeap y && decide (3 ≤ m) then 1 else 0) +
    ((d : Int) - 1)

/-! ## Lemmas on the standard-library models -/

theorem parseUintLoop_le (base maxVal cutoff : Nat) (s : List Char) :
    ∀ n r, n ≤ maxVal → parseUintLoop base maxVal cutoff s n = .ok r → r ≤ maxVal := by
  induction s with
  | nil =>
    intro n r hn h
    simp only [parseUintLoop, Except.ok.injEq] at h
    omega
  | cons c cs ih =>
    intro n r hn h
    unfold parseUintLoop at h
    split at h
    · exact absurd h (by simp)
    · simp only at h
      split_ifs at h with h1 h2 h3
      exact ih _ r (by omega) h

theorem ParseUint_le (s : List Char) (base bitSize r : Nat) (h : ParseUint s base bitSize = .ok r) :
    r ≤ 2 ^ bitSize - 1 := by
  unfold ParseUint at h
  split_ifs at h
  split at h
  · rename_i n hn
    simp only [Except.ok.injEq] at h
    subst h
    exact parseUintLoop_le _ _ _ s 0 _ (Nat.zero_le _) hn
  · exact absurd h (by simp)

theorem ParseUint_mod (s : List Char) (base bitSize r : Nat)
    (h : ParseUint s base bitSize = .ok r) : r % 2 ^ bitSize = r := by
  have := ParseUint_le s base bitSize r h
  have hp : 0 < 2 ^ bitSize := Nat.pow_pos (by decide)
  exact Nat.mod_eq_of_lt (by omega)

theorem newLeapSecondDataFromItems_five {F : Type} (pf : List Char → Except NumErrKind F)
    (t0 t1 t2 t3 t4 : List Char) (x : F) (d m y o : Nat)
    (h0 : pf t0 = .ok x) (h1 : ParseUint t1 10 8 = .ok d) (h2 : ParseUint t2 10 8 = .ok m)
    (h3 : ParseUint t3 10 16 = .ok y) (h4 : ParseUint t4 10 16 = .ok o) :
    newLeapSecondDataFromItems pf [t0, t1, t2, t3, t4] =
      .ok { mjd := x, day := d, month := m, year := y, taiOffset := o,
            Date := timeDate y m d 0 0 0 - 1 } := by
  simp only [newLeapSecondDataFromItems, leapSecondData.updateDate, h0, h1, h2, h3, h4,
    List.getElem?_cons_zero, List.getElem?_cons_succ,
    ParseUint_mod _ _ _ _ h1, ParseUint_mod _ _ _ _ h2, ParseUint_mod _ _ _ _ h3,
    ParseUint_mod _ _ _ _ h4]
  rfl


/-! ## Historical lines: `newLeapSecondDataFromString` -/

/-- C1: a line of exactly five tokens that parse as float, uint8 day, uint8 month,
uint16 year and uint16 offset is accepted by `newLeapSecondDataFromString`; the entry
holds the five parsed values unchanged and its `Date` is UTC midnight of (year, month,
day) minus one second. In particular the line `41317.0    1  1 1972       10` gives
day 1, month 1, year 1972, offset 10 and the date 1971-12-31T23:59:59Z. -/
theorem newLeapSecondDataFromString_wellFormed {F : Type}
    (pf : List Char → Except NumErrKind F) (line t0 t1 t2 t3 t4 : List Char) (x : F)
    (d m y o : Nat) (hf : Fields line = [t0, t1, t2, t3, t4]) (h0 : pf t0 = .ok x)
    (h1 : ParseUint t1 10 8 = .ok d) (h2 : ParseUint t2 10 8 = .ok m)
    (h3 : ParseUint t3 10 16 = .ok y) (h4 : ParseUint t4 10 16 = .ok o) :
    newLeapSecondDataFromString pf line =
        .ok { mjd := x, day := d, month := m, year := y, taiOffset := o,
              Date := timeDate y m d 0 0 0 - 1 } ∧
      ∀ z : F, pf "41317.0".toList = .ok z →
        newLeapSecondDataFromString pf "41317.0    1  1 1972       10".toList =
          .ok { mjd := z, day := 1, month := 1, year := 1972, taiOffset := 10,
                Date := timeDate 1971 12 31 23 59 59 } := by
  have key : ∀ (l s0 s1 s2 s3 s4 : List Char) (z : F) (a b c e : Nat),
      Fields l = [s0, s1, s2, s3, s4] → pf s0 = .ok z → ParseUint s1 10 8 = .ok a →
      ParseUint s2 10 8 = .ok b → ParseUint s3 10 16 = .ok c → ParseUint s4 10 16 = .ok e →
      newLeapSecondDataFromString pf l =
        .ok { mjd := z, day := a, month := b, year := c, taiOffset := e,
              Date := timeDate c b a 0 0 0 - 1 } := by
    intro l s0 s1 s2 s3 s4 z a b c e hl g0 g1 g2 g3 g4
    unfold newLeapSecondDataFromString
    simp only [hl, List.length_cons, List.length_nil, ne_eq, not_true_eq_false, if_false]
    exact newLeapSecondDataFromItems_five pf s0 s1 s2 s3 s4 z a b c e g0 g1 g2 g3 g4
  refine ⟨key line t0 t1 t2 t3 t4 x d m y o hf h0 h1 h2 h3 h4, ?_⟩
  intro z hz
  have h := key "41317.0    1  1 1972       10".toList "41317.0".toList "1".toList "1".toList
    "1972".toList "10".toList z 1 1 1972 10 (by decide) hz (by decide) (by decide)
    (by decide) (by decide)
  rw [h]
  have hd : timeDate ((1972 : Nat) : Int) ((1 : Nat) : Int) ((1 : Nat) : Int) 0 0 0 - 1 =
      timeDate 1971 12 31 23 59 59 := by decide
  rw [hd]

/-- Witness of C1 on the line of the test table, read with `exactDecimal`. -/
theorem newLeapSecondDataFromString_wellFormed_witness :
    Fields "41317.0    1  1 1972       10".toList =
        ["41317.0".toList, "1".toList, "1".toList, "1972".toList, "10".toList] ∧
      newLeapSecondDataFromString exactDecimal "41317.0    1  1 1972       10".toList =
        .ok { mjd := (413170, 1), day := 1, month := 1, year := 1972, taiOffset := 10,
              Date := timeDate 1971 12 31 23 59 59 } :=
  ⟨by decide,
   (newLeapSecondDataFromString_wellFormed exactDecimal
      "41317.0    1  1 1972       10".toList "41317.0".toList "1".toList "1".toList
      "1972".toList "10".toList (413170, 1) 1 1 1972 10 (by decide) (by decide) (by decide)
      (by decide) (by decide) (by decide)).2 (413170, 1) (by decide)⟩

/-- C6: a line whose number of whitespace-separated tokens is not five is rejected by
`newLeapSecondDataFromString` with exactly `ErrInvalidLeapSecondData` and no entry,
whatever the tokens are and whatever the float parser does. -/
theorem newLeapSecondDataFromString_tokenCount {F : Type}
    (pf : List Char → Except NumErrKind F) (line : List Char)
    (h : (Fields line).length ≠ 5) :
    newLeapSecondDataFromString pf line = .err ErrInvalidLeapSecondData := by
  unfold newLeapSecondDataFromString
  simp only [ne_eq, h, not_false_eq_true, if_true]

/-- Witness of C6 on the three rejected lines of the test table: the empty line, a
line of four tokens and a line of seven tokens. -/
theorem newLeapSecondDataFromString_tokenCount_witness :
    ((Fields "".toList).length ≠ 5 ∧
        newLeapSecondDataFromString exactDecimal "".toList = .err ErrInvalidLeapSecondData) ∧
      ((Fields "0.0 1 2 1903".toList).length ≠ 5 ∧
        newLeapSecondDataFromString exactDecimal "0.0 1 2 1903".toList =
          .err ErrInvalidLeapSecondData) ∧
      ((Fields "0.0 1 2 1903 4 5 6".toList).length ≠ 5 ∧
        newLeapSecondDataFromString exactDecimal "0.0 1 2 1903 4 5 6".toList =
          .err ErrInvalidLeapSecondData) :=
  ⟨⟨by decide, newLeapSecondDataFromString_tokenCount exactDecimal _ (by decide)⟩,
   ⟨by decide, newLeapSecondDataFromString_tokenCount exactDecimal _ (by decide)⟩,
   ⟨by decide, newLeapSecondDataFromString_tokenCount exactDecimal _ (by decide)⟩⟩

/-! ## Scheduled lines: `newLastEntryFromString` -/

/-- C4: a line whose split on `|` does not give exactly three fields is rejected by
`newLastEntryFromString` with exactly `ErrInvalidScheduledEntry` and no record,
whatever the fields hold. -/
theorem newLastEntryFromString_fieldCount (line : List Char)
    (h : (Split '|' line).length ≠ 3) :
    newLastEntryFromString line = .err ErrInvalidScheduledEntry := by
  unfold newLastEntryFromString
  simp only [ne_eq, h, not_false_eq_true, if_true]

/-- Witness of C4 on the three rejected lines of the test table: the empty string, a
line of two fields and a line of four fields. -/
theorem newLastEntryFromString_fieldCount_witness :
    ((Split '|' "".toList).length ≠ 3 ∧
        newLastEntryFromString "".toList = .err ErrInvalidScheduledEntry) ∧
      ((Split '|' "10|31 December 2016".toList).length ≠ 3 ∧
        newLastEntryFromString "10|31 December 2016".toList = .err ErrInvalidScheduledEntry) ∧
      ((Split '|' "10|31 December 2016|Not scheduled|foo".toList).length ≠ 3 ∧
        newLastEntryFromString "10|31 December 2016|Not scheduled|foo".toList =
          .err ErrInvalidScheduledEntry) :=
  ⟨⟨by decide, newLastEntryFromString_fieldCount _ (by decide)⟩,
   ⟨by decide, newLastEntryFromString_fieldCount _ (by decide)⟩,
   ⟨by decide, newLastEntryFromString_fieldCount _ (by decide)⟩⟩


/-! ## Lemmas on well-formed fields -/

theorem digitChar_toNat (k : Nat) (h : k < 10) : (digitChar k).toNat = 0x30 + k := by
  interval_cases k <;> rfl

theorem digitOf_digitChar (k : Nat) (h : k < 10) : digitOf (digitChar k) = some k := by
  interval_cases k <;> rfl

theorem isDigit_digitChar (k : Nat) (h : k < 10) : isDigit (digitChar k) = true := by
  interval_cases k <;> rfl

theorem digitChar_ne_bar (k : Nat) (h : k < 10) : digitChar k ≠ '|' := by
  interval_cases k <;> decide

theorem decimalFold_ge (ds : List Nat) : ∀ n, n ≤ ds.foldl (fun n d => 10 * n + d) n := by
  induction ds with
  | nil => intro n; exact Nat.le_refl _
  | cons d ds ih =>
    intro n
    simp only [List.foldl_cons]
    exact Nat.le_trans (by omega) (ih (10 * n + d))

theorem parseUintLoop_decimalText (maxVal : Nat) (hmax : maxVal < 2 ^ 63) (ds : List Nat) :
    ∀ n, (∀ d ∈ ds, d < 10) → ds.foldl (fun n d => 10 * n + d) n ≤ maxVal →
      parseUintLoop 10 maxVal ((2 ^ 64 - 1) / 10 + 1) (decimalText ds) n =
        .ok (ds.foldl (fun n d => 10 * n + d) n) := by
  induction ds with
  | nil => intro n _ _; rfl
  | cons d ds ih =>
    intro n hd hv
    have hd10 : d < 10 := hd d (List.mem_cons_self _ _)
    simp only [List.foldl_cons] at hv ⊢
    have hge := decimalFold_ge ds (10 * n + d)
    have hn : 10 * n + d ≤ maxVal := Nat.le_trans hge hv
    have h63 : (2 : Nat) ^ 63 = 9223372036854775808 := by norm_num
    have h64 : (2 : Nat) ^ 64 = 18446744073709551616 := by norm_num
    have hc : ((2 : Nat) ^ 64 - 1) / 10 + 1 = 1844674407370955162 := by norm_num
    simp only [decimalText, List.map_cons, parseUintLoop, digitOf_digitChar d hd10]
    have e1 : n * 10 % 2 ^ 64 = n * 10 := Nat.mod_eq_of_lt (by omega)
    have e2 : (n * 10 + d) % 2 ^ 64 = n * 10 + d := Nat.mod_eq_of_lt (by omega)
    rw [e1, e2, hc]
    rw [if_neg (by omega), if_neg (by omega), if_neg (by omega)]
    have e3 : n * 10 + d = 10 * n + d := by omega
    rw [e3]
    exact ih (10 * n + d) (fun x hx => hd x (List.mem_cons_of_mem _ hx)) hv

theorem ParseUint_decimalText (ds : List Nat) (hne : ds ≠ []) (hd : ∀ d ∈ ds, d < 10)
    (hv : decimalValue ds ≤ 65535) :
    ParseUint (decimalText ds) 10 16 = .ok (decimalValue ds) := by
  unfold ParseUint
  have hne2 : decimalText ds ≠ [] := by
    simpa [decimalText] using hne
  rw [if_neg hne2]
  have h16 : (2 : Nat) ^ 16 - 1 = 65535 := by norm_num
  rw [h16, parseUintLoop_decimalText 65535 (by norm_num) ds 0 hd hv]
  rfl

theorem Split_of_not_mem (sep : Char) (a : List Char) (h : sep ∉ a) : Split sep a = [a] := by
  induction a with
  | nil => rfl
  | cons c cs ih =>
    have hc : c ≠ sep := fun e => h (e ▸ List.mem_cons_self _ _)
    have hcs : sep ∉ cs := fun e => h (List.mem_cons_of_mem _ e)
    simp only [Split, if_neg hc, ih hcs]

theorem Split_append_sep (sep : Char) (a rest : List Char) (h : sep ∉ a) :
    Split sep (a ++ sep :: rest) = a :: Split sep rest := by
  induction a with
  | nil => simp only [List.nil_append, Split, if_true]
  | cons c cs ih =>
    have hc : c ≠ sep := fun e => h (e ▸ List.mem_cons_self _ _)
    have hcs : sep ∉ cs := fun e => h (List.mem_cons_of_mem _ e)
    show Split sep (c :: (cs ++ sep :: rest)) = _
    simp only [Split, if_neg hc, ih hcs]

theorem Split_scheduledLine (a b c : List Char) (ha : '|' ∉ a) (hb : '|' ∉ b)
    (hc : '|' ∉ c) : Split '|' (scheduledLine a b c) = [a, b, c] := by
  unfold scheduledLine
  rw [Split_append_sep _ _ _ ha, Split_append_sep _ _ _ hb, Split_of_not_mem _ _ hc]

theorem skipSpace_monthName (m : Nat) (h1 : 1 ≤ m) (h2 : m ≤ 12) (rest : List Char) :
    skipSpace (' ' :: (monthName m ++ rest)) = some (monthName m ++ rest) := by
  interval_cases m <;> rfl

theorem lookup_monthName (m : Nat) (h1 : 1 ≤ m) (h2 : m ≤ 12) (rest : List Char) :
    lookup longMonthNames 0 (monthName m ++ ' ' :: rest) = some (m - 1, ' ' :: rest) := by
  interval_cases m <;> rfl

theorem skipSpace_digitChar (k : Nat) (h : k < 10) (rest : List Char) :
    skipSpace (' ' :: digitChar k :: rest) = some (digitChar k :: rest) := by
  interval_cases k <;> rfl

theorem parseDateFields_formatDate (d m y : Nat) (h : validDate d m y) :
    parseDateFields (formatDate d m y) = some (y, m, d) := by
  obtain ⟨hm1, hm12, hd1, hd, hy⟩ := h
  have hd31 : d ≤ 31 := by
    refine Nat.le_trans hd ?_
    unfold monthDays
    split_ifs <;> omega
  have a1 : d / 10 < 10 := by omega
  have a2 : d % 10 < 10 := by omega
  have b1 : y / 1000 < 10 := by omega
  have b2 : y / 100 % 10 < 10 := by omega
  have b3 : y / 10 % 10 < 10 := by omega
  have b4 : y % 10 < 10 := by omega
  have hl := lookup_monthName m hm1 hm12
    [digitChar (y / 1000), digitChar (y / 100 % 10), digitChar (y / 10 % 10), digitChar (y % 10)]
  have hs := skipSpace_monthName m hm1 hm12
    [' ', digitChar (y / 1000), digitChar (y / 100 % 10), digitChar (y / 10 % 10),
      digitChar (y % 10)]
  have hs2 := skipSpace_digitChar (y / 1000) b1
    [digitChar (y / 100 % 10), digitChar (y / 10 % 10), digitChar (y % 10)]
  simp only [formatDate, parseDateFields, isDigit_digitChar _ a1, isDigit_digitChar _ a2,
    isDigit_digitChar _ b1, isDigit_digitChar _ b2, isDigit_digitChar _ b3,
    isDigit_digitChar _ b4, Bool.and_self, if_true, hs, hl, hs2,
    digitChar_toNat _ a1, digitChar_toNat _ a2, digitChar_toNat _ b1, digitChar_toNat _ b2,
    digitChar_toNat _ b3, digitChar_toNat _ b4]
  have e1 : (48 + y / 1000 - 48) * 1000 + (48 + y / 100 % 10 - 48) * 100 +
      (48 + y / 10 % 10 - 48) * 10 + (48 + y % 10 - 48) = y := by omega
  have e2 : m - 1 + 1 = m := by omega
  have e3 : (48 + d / 10 - 48) * 10 + (48 + d % 10 - 48) = d := by omega
  rw [e1, e2, e3]

theorem daysIn_eq_monthDays (m y : Nat) (h1 : 1 ≤ m) (h2 : m ≤ 12) :
    daysIn m (y : Int) = (monthDays y m : Int) := by
  have hl : isLeap (y : Int) = true ↔ (y % 4 = 0 ∧ (y % 100 ≠ 0 ∨ y % 400 = 0)) := by
    simp only [isLeap, Bool.and_eq_true, Bool.or_eq_true, beq_iff_eq, bne_iff_ne, ne_eq]
    omega
  unfold daysIn monthDays
  by_cases hleap : isLeap (y : Int) = true
  · have hn := hl.mp hleap
    interval_cases m <;> simp [hleap, hn, daysBefore]
  · have hn : ¬ (y % 4 = 0 ∧ (y % 100 ≠ 0 ∨ y % 400 = 0)) := fun e => hleap (hl.mpr e)
    interval_cases m <;> simp [hleap, hn, daysBefore]

theorem timeParse_formatDate (d m y : Nat) (h : validDate d m y) :
    timeParse (formatDate d m y) = .ok (timeDate y m d 0 0 0) := by
  unfold timeParse
  rw [parseDateFields_formatDate d m y h]
  obtain ⟨hm1, hm12, hd1, hd, hy⟩ := h
  simp only [daysIn_eq_monthDays m y hm1 hm12]
  rw [if_neg]
  intro hc
  rcases hc with hc | hc
  · omega
  · have : monthDays y m < d := by exact_mod_cast hc
    omega

theorem bar_not_mem_monthName (m : Nat) : '|' ∉ monthName m := by
  unfold monthName
  split <;> decide

theorem bar_not_mem_formatDate (d m y : Nat) (h : validDate d m y) :
    '|' ∉ formatDate d m y := by
  obtain ⟨hm1, hm12, hd1, hd, hy⟩ := h
  have hd31 : d ≤ 31 := by
    refine Nat.le_trans hd ?_
    unfold monthDays
    split_ifs <;> omega
  have c1 := (digitChar_ne_bar (d / 10) (by omega)).symm
  have c2 := (digitChar_ne_bar (d % 10) (by omega)).symm
  have c3 := (digitChar_ne_bar (y / 1000) (by omega)).symm
  have c4 := (digitChar_ne_bar (y / 100 % 10) (by omega)).symm
  have c5 := (digitChar_ne_bar (y / 10 % 10) (by omega)).symm
  have c6 := (digitChar_ne_bar (y % 10) (by omega)).symm
  have c7 : '|' ≠ ' ' := by decide
  simp only [formatDate, List.mem_cons, List.mem_append, List.mem_singleton, not_or,
    List.not_mem_nil, or_false]
  exact ⟨c1, c2, c7, bar_not_mem_monthName m, c7, c3, c4, c5, c6⟩

theorem bar_not_mem_decimalText (ds : List Nat) (hd : ∀ d ∈ ds, d < 10) :
    '|' ∉ decimalText ds := by
  intro hmem
  obtain ⟨k, hk, he⟩ := List.mem_map.mp hmem
  exact digitChar_ne_bar k (hd k hk) he

theorem formatDate_ne_notScheduled (d m y : Nat) (h : validDate d m y) :
    formatDate d m y ≠ notScheduled := by
  obtain ⟨hm1, hm12, hd1, hd, hy⟩ := h
  have hd31 : d ≤ 31 := by
    refine Nat.le_trans hd ?_
    unfold monthDays
    split_ifs <;> omega
  have hk : d / 10 < 10 := by omega
  intro e
  have e2 : digitChar (d / 10) = 'N' := by
    have := congrArg List.head? e
    simpa [formatDate, notScheduled] using this
  have hn := digitChar_toNat (d / 10) hk
  rw [e2] at hn
  have : ('N' : Char).toNat = 78 := by decide
  omega

theorem newLastEntryFromString_fields (a b c : List Char) (n : Nat) (t : Int)
    (ha : '|' ∉ a) (hb : '|' ∉ b) (hc : '|' ∉ c) (hn : ParseUint a 10 16 = .ok n)
    (ht : timeParse b = .ok t) :
    newLastEntryFromString (scheduledLine a b c) =
      if c ≠ notScheduled then
        match timeParse c with
        | .error e =>
          .err (.wrap e ("parsing next scheduled leap second date containing ".toList ++ c))
        | .ok next => .ok { taiOffset := n, last := t, next := some next }
      else .ok { taiOffset := n, last := t, next := none } := by
  unfold newLastEntryFromString
  simp only [Split_scheduledLine a b c ha hb hc, List.length_cons, List.length_nil, ne_eq,
    not_true_eq_false, if_false, List.getElem?_cons_zero, List.getElem?_cons_succ, hn, ht,
    ParseUint_mod _ _ _ _ hn]

/-- C2: a scheduled line `<offset>|<date>|Not scheduled`, whose offset is a decimal
numeral of value at most 65535 and whose date is a valid date written as two-digit day,
full month name and four-digit year, is accepted by `newLastEntryFromString` with
`taiOffset` the value of the offset, `last` that date at UTC midnight and `next` absent.
In particular `37|31 December 2016|Not scheduled` gives 37, 2016-12-31 and no next
date. -/
theorem newLastEntryFromString_notScheduled (ds : List Nat) (d m y : Nat) (hne : ds ≠ [])
    (hds : ∀ k ∈ ds, k < 10) (hv : decimalValue ds ≤ 65535) (hdate : validDate d m y) :
    newLastEntryFromString (scheduledLine (decimalText ds) (formatDate d m y) notScheduled) =
        .ok { taiOffset := decimalValue ds, last := timeDate y m d 0 0 0, next := none } ∧
      newLastEntryFromString "37|31 December 2016|Not scheduled".toList =
        .ok { taiOffset := 37, last := timeDate 2016 12 31 0 0 0, next := none } := by
  refine ⟨?_, by decide⟩
  rw [newLastEntryFromString_fields (decimalText ds) (formatDate d m y) notScheduled
    (decimalValue ds) (timeDate y m d 0 0 0) (bar_not_mem_decimalText ds hds)
    (bar_not_mem_formatDate d m y hdate) (by decide) (ParseUint_decimalText ds hne hds hv)
    (timeParse_formatDate d m y hdate)]
  simp only [ne_eq, not_true_eq_false, if_false]

/-- Witness of C2 on the line `37|31 December 2016|Not scheduled`. -/
theorem newLastEntryFromString_notScheduled_witness :
    scheduledLine (decimalText [3, 7]) (formatDate 31 12 2016) notScheduled =
        "37|31 December 2016|Not scheduled".toList ∧
      validDate 31 12 2016 ∧
      newLastEntryFromString (scheduledLine (decimalText [3, 7]) (formatDate 31 12 2016)
          notScheduled) =
        .ok { taiOffset := 37, last := timeDate 2016 12 31 0 0 0, next := none } :=
  ⟨by decide, by unfold validDate; decide,
   (newLastEntryFromString_notScheduled [3, 7] 31 12 2016 (by decide) (by decide) (by decide)
      (by unfold validDate; decide)).1⟩

/-- C3: a scheduled line of three fields whose offset and last date are well formed and
whose third field is a valid date in the same format is accepted by
`newLastEntryFromString`, and `next` is present and is the date of the third field at
UTC midnight. In particular `36|30 June 2015|31 December 2016` gives 36, 2015-06-30 and
next 2016-12-31. -/
theorem newLastEntryFromString_nextScheduled (ds : List Nat) (d m y d2 m2 y2 : Nat)
    (hne : ds ≠ []) (hds : ∀ k ∈ ds, k < 10) (hv : decimalValue ds ≤ 65535)
    (hdate : validDate d m y) (hnext : validDate d2 m2 y2) :
    newLastEntryFromString
        (scheduledLine (decimalText ds) (formatDate d m y) (formatDate d2 m2 y2)) =
        .ok { taiOffset := decimalValue ds, last := timeDate y m d 0 0 0,
              next := some (timeDate y2 m2 d2 0 0 0) } ∧
      newLastEntryFromString "36|30 June 2015|31 December 2016".toList =
        .ok { taiOffset := 36, last := timeDate 2015 6 30 0 0 0,
              next := some (timeDate 2016 12 31 0 0 0) } := by
  refine ⟨?_, by decide⟩
  rw [newLastEntryFromString_fields (decimalText ds) (formatDate d m y) (formatDate d2 m2 y2)
    (decimalValue ds) (timeDate y m d 0 0 0) (bar_not_mem_decimalText ds hds)
    (bar_not_mem_formatDate d m y hdate) (bar_not_mem_formatDate d2 m2 y2 hnext)
    (ParseUint_decimalText ds hne hds hv) (timeParse_formatDate d m y hdate)]
  rw [if_pos (formatDate_ne_notScheduled d2 m2 y2 hnext), timeParse_formatDate d2 m2 y2 hnext]

/-- Witness of C3 on the line `36|30 June 2015|31 December 2016`. -/
theorem newLastEntryFromString_nextScheduled_witness :
    scheduledLine (decimalText [3, 6]) (formatDate 30 6 2015) (formatDate 31 12 2016) =
        "36|30 June 2015|31 December 2016".toList ∧
      validDate 30 6 2015 ∧ validDate 31 12 2016 ∧
      newLastEntryFromString
          (scheduledLine (decimalText [3, 6]) (formatDate 30 6 2015) (formatDate 31 12 2016)) =
        .ok { taiOffset := 36, last := timeDate 2015 6 30 0 0 0,
              next := some (timeDate 2016 12 31 0 0 0) } :=
  ⟨by decide, by unfold validDate; decide, by unfold validDate; decide,
   (newLastEntryFromString_nextScheduled [3, 6] 30 6 2015 31 12 2016 (by decide) (by decide)
      (by decide) (by unfold validDate; decide) (by unfold validDate; decide)).1⟩


/-! ## Lemmas on lines, comments and tokens -/

theorem byteLen_append (a b : List Char) : byteLen (a ++ b) = byteLen a + byteLen b := by
  simp only [byteLen, List.map_append, List.sum_append]

theorem byteLen_replicate (n : Nat) (c : Char) :
    byteLen (List.replicate n c) = n * c.utf8Size := by
  simp only [byteLen, List.map_replicate, List.sum_replicate, smul_eq_mul]

theorem fieldsGo_dropCR (l : List Char) :
    ∀ cur, fieldsGo (stripComment (dropCR l)) cur = fieldsGo (stripComment l) cur := by
  induction l with
  | nil => intro cur; rfl
  | cons c cs ih =>
    intro cur
    cases cs with
    | nil =>
      by_cases hc : c = '\r'
      · subst hc
        simp only [dropCR, if_true, stripComment, List.takeWhile]
        have h1 : ('\r' != '#') = true := by decide
        have h2 : isSpace '\r' = true := by decide
        simp only [h1, fieldsGo, h2, if_true]
      · simp only [dropCR, if_neg hc]
    | cons d ds =>
      simp only [dropCR, stripComment, List.takeWhile] at ih ⊢
      by_cases hh : (c != '#') = true
      · simp only [hh, fieldsGo]
        by_cases hs : isSpace c = true
        · simp only [hs, if_true]
          rw [ih []]
        · simp only [hs, Bool.false_eq_true, if_false]
          rw [ih (cur ++ [c])]
      · simp only [hh]

theorem Fields_dropCR (l : List Char) :
    Fields (stripComment (dropCR l)) = Fields (stripComment l) :=
  fieldsGo_dropCR l []

theorem stripComment_append_hash (l c : List Char) :
    stripComment (l ++ '#' :: c) = stripComment l := by
  induction l with
  | nil => simp [stripComment, List.takeWhile]
  | cons x xs ih =>
    show List.takeWhile (fun c => c != '#') (x :: (xs ++ '#' :: c)) =
      List.takeWhile (fun c => c != '#') (x :: xs)
    simp only [stripComment] at ih
    simp only [List.takeWhile]
    by_cases hx : (x != '#') = true
    · simp only [hx, ih]
    · simp only [hx]

theorem dropCR_append (l m : List Char) (hm : m ≠ []) : dropCR (l ++ m) = l ++ dropCR m := by
  induction l with
  | nil => rfl
  | cons x xs ih =>
    cases hxs : xs ++ m with
    | nil =>
      have := List.append_eq_nil.mp hxs
      exact absurd this.2 hm
    | cons y ys =>
      rw [List.cons_append, hxs]
      simp only [dropCR]
      rw [← hxs, ih]
      rfl

theorem dropCR_hash (c : List Char) : ∃ c2, dropCR ('#' :: c) = '#' :: c2 := by
  cases c with
  | nil => exact ⟨[], by decide⟩
  | cons d ds => exact ⟨dropCR (d :: ds), rfl⟩

theorem Fields_comment (line c : List Char) :
    Fields (stripComment (dropCR (line ++ '#' :: c))) = Fields (stripComment (dropCR line)) := by
  obtain ⟨c2, hc2⟩ := dropCR_hash c
  rw [dropCR_append line ('#' :: c) (List.cons_ne_nil _ _), hc2, stripComment_append_hash,
    Fields_dropCR]

theorem fieldsGo_allSpace (l : List Char) (h : l.all isSpace = true) : fieldsGo l [] = [] := by
  induction l with
  | nil => rfl
  | cons c cs ih =>
    simp only [List.all_cons, Bool.and_eq_true] at h
    simp only [fieldsGo, h.1, if_true]
    exact ih h.2

theorem Fields_blankLine (b : List Char) (h : blankLine b = true) :
    Fields (stripComment (dropCR b)) = [] := by
  rw [Fields_dropCR]
  exact fieldsGo_allSpace _ h

theorem rawLines_eq_nil (s : List Char) (h : rawLines s = []) : s = [] := by
  cases s with
  | nil => rfl
  | cons c cs =>
    unfold rawLines at h
    split_ifs at h
    split at h <;> exact absurd h (List.cons_ne_nil _ _)

theorem rawLines_line_feed (l r : List Char) (h : '\n' ∉ l) :
    rawLines (l ++ '\n' :: r) = l :: rawLines r := by
  induction l with
  | nil => simp only [List.nil_append, rawLines, if_true]
  | cons c cs ih =>
    have hc : c ≠ '\n' := fun e => h (e ▸ List.mem_cons_self _ _)
    have hcs : '\n' ∉ cs := fun e => h (List.mem_cons_of_mem _ e)
    show rawLines (c :: (cs ++ '\n' :: r)) = _
    simp only [rawLines, if_neg hc, ih hcs]

theorem rawLines_last (l : List Char) (h : '\n' ∉ l) (hne : l ≠ []) : rawLines l = [l] := by
  induction l with
  | nil => exact absurd rfl hne
  | cons c cs ih =>
    have hc : c ≠ '\n' := fun e => h (e ▸ List.mem_cons_self _ _)
    have hcs : '\n' ∉ cs := fun e => h (List.mem_cons_of_mem _ e)
    cases cs with
    | nil => simp only [rawLines, if_neg hc]
    | cons d ds =>
      simp only [rawLines, if_neg hc] at ih ⊢
      rw [ih hcs (List.cons_ne_nil _ _)]

theorem rawLines_append (pre x : List Char) (h : endsLines pre) :
    rawLines (pre ++ x) = rawLines pre ++ rawLines x := by
  induction pre with
  | nil => rfl
  | cons c cs ih =>
    have hcs : endsLines cs := by
      cases cs with
      | nil => exact Or.inl rfl
      | cons d ds =>
        rcases h with h | h
        · exact absurd h (List.cons_ne_nil _ _)
        · right
          simpa [List.getLast?_cons_cons] using h
    by_cases hc : c = '\n'
    · show rawLines (c :: (cs ++ x)) = _
      simp only [rawLines, hc, if_true, ih hcs, List.cons_append]
    · have hne : cs ≠ [] := by
        intro e
        subst e
        rcases h with h | h
        · exact absurd h (List.cons_ne_nil _ _)
        · simp only [List.getLast?_singleton, Option.some.injEq] at h
          exact hc h
      show rawLines (c :: (cs ++ x)) = _
      simp only [rawLines, if_neg hc, ih hcs]
      cases hr : rawLines cs with
      | nil => exact absurd (rawLines_eq_nil cs hr) hne
      | cons l ls => rfl

theorem parseLines_append {F : Type} (pf : List Char → Except NumErrKind F)
    (A B : List (List Char)) :
    ∀ rv, parseLines pf (A ++ B) rv =
      match parseLines pf A rv with
      | .ret rv2 none => parseLines pf B rv2
      | r => r := by
  induction A with
  | nil => intro rv; rfl
  | cons a as ih =>
    intro rv
    simp only [List.cons_append, parseLines]
    cases scanToken a with
    | error e => rfl
    | ok token =>
      simp only
      split_ifs
      · cases newLeapSecondDataFromItems pf (Fields (stripComment token)) with
        | ok lsd => exact ih _
        | err e => rfl
        | panic => rfl
      · exact ih _


/-! ## Historical texts: `parseDataFile` -/

theorem parseLines_cons_comment {F : Type} (pf : List Char → Except NumErrKind F)
    (line c : List Char) (rest : List (List Char)) (rv : List (leapSecondData F))
    (hlen : byteLen (line ++ '#' :: c) < MaxScanTokenSize) :
    parseLines pf ((line ++ '#' :: c) :: rest) rv = parseLines pf (line :: rest) rv := by
  have hlen2 : byteLen line < MaxScanTokenSize := by
    rw [byteLen_append] at hlen
    omega
  simp only [parseLines, scanToken, if_neg (Nat.not_le.mpr hlen), if_neg (Nat.not_le.mpr hlen2),
    Fields_comment]

theorem parseLines_cons_blank {F : Type} (pf : List Char → Except NumErrKind F)
    (b : List Char) (rest : List (List Char)) (rv : List (leapSecondData F))
    (hb : blankLine b = true) (hlen : byteLen b < MaxScanTokenSize) :
    parseLines pf (b :: rest) rv = parseLines pf rest rv := by
  simp only [parseLines, scanToken, if_neg (Nat.not_le.mpr hlen), Fields_blankLine b hb,
    List.length_nil, gt_iff_lt, Nat.lt_irrefl, if_false]

theorem parseDataFile_append {F : Type} (pf : List Char → Except NumErrKind F)
    (pre x : List Char) (h : endsLines pre) :
    parseDataFile pf (pre ++ x) =
      match parseLines pf (rawLines pre) [] with
      | .ret rv2 none => parseLines pf (rawLines x) rv2
      | r => r := by
  unfold parseDataFile
  rw [rawLines_append pre x h, parseLines_append]

theorem parseDataFile_congr {F : Type} (pf : List Char → Except NumErrKind F)
    (pre x y : List Char) (h : endsLines pre)
    (hxy : ∀ rv, parseLines pf (rawLines x) rv = parseLines pf (rawLines y) rv) :
    parseDataFile pf (pre ++ x) = parseDataFile pf (pre ++ y) := by
  rw [parseDataFile_append pf pre x h, parseDataFile_append pf pre y h]
  cases parseLines pf (rawLines pre) [] with
  | panic => rfl
  | ret rv2 e =>
    cases e with
    | none => exact hxy rv2
    | some e => rfl

theorem startsLine_cases (post : List Char) (h : startsLine post) :
    post = [] ∨ ∃ r, post = '\n' :: r := by
  rcases h with h | h
  · exact Or.inl h
  · cases post with
    | nil => exact Or.inl rfl
    | cons c cs =>
      simp only [List.head?_cons, Option.some.injEq] at h
      exact Or.inr ⟨cs, by rw [h]⟩

theorem parseDataFile_tooLong {F : Type} (pf : List Char → Except NumErrKind F)
    (l : List Char) (hnl : '\n' ∉ l) (hlen : MaxScanTokenSize ≤ byteLen l) :
    parseDataFile pf l = .ret [] (some .errTooLong) := by
  have hne : l ≠ [] := by
    intro e
    subst e
    exact absurd hlen (by decide)
  unfold parseDataFile
  rw [rawLines_last l hnl hne]
  simp only [parseLines, scanToken, if_pos hlen]

/-- C7 (amended): appending to a line of a historical text a `#` followed by any text
without line feed, or removing such a comment, does not change the result of
`parseDataFile`, provided the line with its comment is shorter than the 65536 bytes
that the scanner can hold. In particular `41317.0 1 1 1972 10 # comment` gives the same
entries and error as `41317.0 1 1 1972 10`. -/
theorem parseDataFile_comment {F : Type} (pf : List Char → Except NumErrKind F)
    (pre line c post : List Char) (hpre : endsLines pre) (hline : '\n' ∉ line)
    (hc : '\n' ∉ c) (hpost : startsLine post)
    (hlen : byteLen (line ++ '#' :: c) < MaxScanTokenSize) :
    parseDataFile pf (pre ++ ((line ++ '#' :: c) ++ post)) =
        parseDataFile pf (pre ++ (line ++ post)) ∧
      parseDataFile pf "41317.0 1 1 1972 10 # comment".toList =
        parseDataFile pf "41317.0 1 1 1972 10".toList := by
  constructor
  · apply parseDataFile_congr pf pre _ _ hpre
    intro rv
    have hlc : '\n' ∉ line ++ '#' :: c := by
      simp only [List.mem_append, List.mem_cons, not_or]
      exact ⟨hline, by decide, hc⟩
    rcases startsLine_cases post hpost with hp | ⟨r, hp⟩
    · subst hp
      simp only [List.append_nil]
      rw [rawLines_last _ hlc (by simp), parseLines_cons_comment pf line c [] rv hlen]
      by_cases hl : line = []
      · subst hl
        rfl
      · rw [rawLines_last line hline hl]
    · subst hp
      rw [rawLines_line_feed _ r hlc, rawLines_line_feed _ r hline,
        parseLines_cons_comment pf line c _ rv hlen]
  · have h1 : rawLines "41317.0 1 1 1972 10 # comment".toList =
        ["41317.0 1 1 1972 10 ".toList ++ '#' :: " comment".toList] := by decide
    have h2 : rawLines "41317.0 1 1 1972 10".toList = ["41317.0 1 1 1972 10".toList] := by
      decide
    have h3 : scanToken "41317.0 1 1 1972 10".toList = .ok "41317.0 1 1 1972 10".toList := by
      decide
    have h4 : scanToken "41317.0 1 1 1972 10 ".toList = .ok "41317.0 1 1 1972 10 ".toList := by
      decide
    have h5 : Fields (stripComment "41317.0 1 1 1972 10 ".toList) =
        Fields (stripComment "41317.0 1 1 1972 10".toList) := by decide
    unfold parseDataFile
    rw [h1, h2, parseLines_cons_comment pf _ _ [] [] (by decide)]
    simp only [parseLines, h3, h4, h5]

/-- Witness of C7: the comment ` comment` appended to the line `41317.0 1 1 1972 10 `. -/
theorem parseDataFile_comment_witness :
    byteLen ("41317.0 1 1 1972 10 ".toList ++ '#' :: " comment".toList) < MaxScanTokenSize ∧
      parseDataFile exactDecimal
          ([] ++ (("41317.0 1 1 1972 10 ".toList ++ '#' :: " comment".toList) ++ [])) =
        parseDataFile exactDecimal ([] ++ ("41317.0 1 1 1972 10 ".toList ++ [])) :=
  ⟨by decide,
   (parseDataFile_comment exactDecimal [] "41317.0 1 1 1972 10 ".toList " comment".toList []
      (Or.inl rfl) (by decide) (by decide) (Or.inl rfl) (by decide)).1⟩

/-- Counterexample to C7 as stated: a comment of 65536 characters appended to the only
line of a text makes the scanner fail with `ErrTooLong`, and the entry of the line is
lost, so the result is not the one of the line without the comment. -/
theorem parseDataFile_comment_counterexample :
    parseDataFile exactDecimal "41317.0 1 1 1972 10".toList =
        .ret [{ mjd := (413170, 1), day := 1, month := 1, year := 1972, taiOffset := 10,
                Date := timeDate 1971 12 31 23 59 59 }] none ∧
      parseDataFile exactDecimal
          ("41317.0 1 1 1972 10".toList ++ '#' :: List.replicate 65536 'x') =
        .ret [] (some .errTooLong) ∧
      parseDataFile exactDecimal
          ("41317.0 1 1 1972 10".toList ++ '#' :: List.replicate 65536 'x') ≠
        parseDataFile exactDecimal "41317.0 1 1 1972 10".toList := by
  have hshort : parseDataFile exactDecimal "41317.0 1 1 1972 10".toList =
      .ret [{ mjd := (413170, 1), day := 1, month := 1, year := 1972, taiOffset := 10,
              Date := timeDate 1971 12 31 23 59 59 }] none := by decide
  have hlong : parseDataFile exactDecimal
      ("41317.0 1 1 1972 10".toList ++ '#' :: List.replicate 65536 'x') =
      .ret [] (some .errTooLong) := by
    apply parseDataFile_tooLong
    · simp only [List.mem_append, List.mem_cons, List.mem_replicate, not_or]
      exact ⟨by decide, by decide, fun h => absurd h.2 (by decide)⟩
    · have h1 : byteLen "41317.0 1 1 1972 10".toList = 19 := by decide
      have h2 : ('x' : Char).utf8Size = 1 := by decide
      have h3 : byteLen ['#'] = 1 := by decide
      have h4 : ("41317.0 1 1 1972 10".toList ++ '#' :: List.replicate 65536 'x') =
          "41317.0 1 1 1972 10".toList ++ (['#'] ++ List.replicate 65536 'x') := rfl
      rw [h4, byteLen_append, byteLen_append, byteLen_replicate, h1, h2, h3]
      decide
  refine ⟨hshort, hlong, ?_⟩
  rw [hshort, hlong]
  intro h
  cases h

theorem parseLines_blank {F : Type} (pf : List Char → Except NumErrKind F)
    (ls : List (List Char)) :
    ∀ rv, (∀ l ∈ ls, blankLine l = true ∧ byteLen l < MaxScanTokenSize) →
      parseLines pf ls rv = .ret rv none := by
  induction ls with
  | nil => intro rv _; rfl
  | cons l ls ih =>
    intro rv h
    have hl := h l (List.mem_cons_self _ _)
    rw [parseLines_cons_blank pf l ls rv hl.1 hl.2]
    exact ih rv (fun x hx => h x (List.mem_cons_of_mem _ hx))

/-- C8 (amended): inserting or deleting, between two lines or at the end of a
historical text, a line that is empty, white space only, or optional white space
followed by a `#` comment, leaves the result of `parseDataFile` unchanged, and a text
made only of such lines parses to zero entries without error, provided these lines are
shorter than the 65536 bytes that the scanner can hold. -/
theorem parseDataFile_blankLines {F : Type} (pf : List Char → Except NumErrKind F)
    (pre b post : List Char) (hpre : endsLines pre) (hb : blankLine b = true)
    (hnl : '\n' ∉ b) (hlen : byteLen b < MaxScanTokenSize) :
    parseDataFile pf (pre ++ (b ++ '\n' :: post)) = parseDataFile pf (pre ++ post) ∧
      parseDataFile pf (pre ++ b) = parseDataFile pf pre ∧
      ∀ text : List Char,
        (∀ l ∈ rawLines text, blankLine l = true ∧ byteLen l < MaxScanTokenSize) →
        parseDataFile pf text = .ret [] none := by
  refine ⟨?_, ?_, ?_⟩
  · apply parseDataFile_congr pf pre _ _ hpre
    intro rv
    rw [rawLines_line_feed b post hnl, parseLines_cons_blank pf b _ rv hb hlen]
  · conv_rhs => rw [← List.append_nil pre]
    apply parseDataFile_congr pf pre _ _ hpre
    intro rv
    by_cases hne : b = []
    · rw [hne]
    · rw [rawLines_last b hnl hne, parseLines_cons_blank pf b _ rv hb hlen]
      rfl
  · intro text h
    exact parseLines_blank pf (rawLines text) [] h

/-- Witness of C8: a comment line inserted between two records. -/
theorem parseDataFile_blankLines_witness :
    blankLine "  # leap seconds".toList = true ∧
      parseDataFile exactDecimal
          ("41317.0 1 1 1972 10\n".toList ++
            ("  # leap seconds".toList ++ '\n' :: "41499.0 1 7 1972 11\n".toList)) =
        parseDataFile exactDecimal
          ("41317.0 1 1 1972 10\n".toList ++ "41499.0 1 7 1972 11\n".toList) :=
  ⟨by decide,
   (parseDataFile_blankLines exactDecimal "41317.0 1 1 1972 10\n".toList
      "  # leap seconds".toList "41499.0 1 7 1972 11\n".toList (Or.inr (by decide))
      (by decide) (by decide) (by decide)).1⟩

theorem blankLine_replicate (n : Nat) : blankLine (List.replicate n ' ') = true := by
  induction n with
  | zero => rfl
  | succ n ih =>
    have h1 : (' ' != '#') = true := by decide
    have h2 : isSpace ' ' = true := by decide
    simp only [blankLine, List.replicate_succ, List.takeWhile, h1, List.all_cons, h2,
      Bool.true_and] at ih ⊢
    exact ih

/-- Counterexample to C8 as stated: a text made of one line of 65536 blanks is made only
of white-space lines, and `parseDataFile` fails on it with `ErrTooLong`, whereas the
text without that line parses without error. -/
theorem parseDataFile_blankLines_counterexample :
    blankLine (List.replicate 65536 ' ') = true ∧
      parseDataFile exactDecimal (List.replicate 65536 ' ') = .ret [] (some .errTooLong) ∧
      parseDataFile exactDecimal [] = .ret [] none ∧
      parseDataFile exactDecimal (List.replicate 65536 ' ') ≠ parseDataFile exactDecimal [] := by
  have hlong : parseDataFile exactDecimal (List.replicate 65536 ' ') =
      .ret [] (some .errTooLong) := by
    apply parseDataFile_tooLong
    · simp only [List.mem_replicate, not_and]
      intro _
      decide
    · have h2 : (' ' : Char).utf8Size = 1 := by decide
      rw [byteLen_replicate, h2]
      decide
  have hempty : parseDataFile exactDecimal [] = .ret [] none := rfl
  refine ⟨blankLine_replicate 65536, hlong, hempty, ?_⟩
  rw [hlong, hempty]
  intro h
  cases h


theorem All_eq_map {F : Type} (l : List (leapSecondData F)) :
    ∀ acc : List Int, l.foldl (fun rv e => rv ++ [e.Date]) acc = acc ++ l.map (fun e => e.Date) := by
  induction l with
  | nil => intro acc; simp
  | cons e es ih =>
    intro acc
    simp only [List.foldl_cons, List.map_cons, ih, List.append_assoc, List.singleton_append]

theorem recordOf_blank {F : Type} (pf : List Char → Except NumErrKind F) (l : List Char)
    (hb : blankLine l = true) : recordOf pf l = none := by
  have hf : Fields (List.takeWhile (fun c => c != '#') l) = [] := fieldsGo_allSpace _ hb
  simp only [recordOf, newLeapSecondDataFromString, hf, List.length_nil, ne_eq]
  rfl

theorem parseLines_cons_record {F : Type} (pf : List Char → Except NumErrKind F)
    (l : List Char) (rest : List (List Char)) (rv : List (leapSecondData F))
    (e : leapSecondData F) (hr : recordOf pf l = some e) (hlen : byteLen l < MaxScanTokenSize) :
    parseLines pf (l :: rest) rv = parseLines pf rest (rv ++ [e]) := by
  have hf : Fields (stripComment (dropCR l)) = Fields (List.takeWhile (fun c => c != '#') l) :=
    Fields_dropCR l
  unfold recordOf newLeapSecondDataFromString at hr
  simp only at hr
  split_ifs at hr with h5
  have h5b : (Fields (List.takeWhile (fun c => c != '#') l)).length = 5 := by
    simpa using h5
  simp only [parseLines, scanToken, if_neg (Nat.not_le.mpr hlen), hf, h5b, gt_iff_lt,
    Nat.lt_add_one_iff, Nat.zero_lt_succ, if_true]
  cases hi : newLeapSecondDataFromItems pf (Fields (List.takeWhile (fun c => c != '#') l)) with
  | ok a =>
    rw [hi] at hr
    simp only [Option.some.injEq] at hr
    rw [hr, if_pos (by decide)]
  | err a =>
    rw [hi] at hr
    exact absurd hr (by simp)
  | panic =>
    rw [hi] at hr
    exact absurd hr (by simp)

theorem parseLines_records {F : Type} (pf : List Char → Except NumErrKind F)
    (ls : List (List Char)) :
    ∀ rv, (∀ l ∈ ls, byteLen l < MaxScanTokenSize ∧
        (blankLine l = true ∨ (recordOf pf l).isSome = true)) →
      parseLines pf ls rv = .ret (rv ++ ls.filterMap (recordOf pf)) none := by
  induction ls with
  | nil => intro rv _; simp [parseLines]
  | cons l ls ih =>
    intro rv h
    have hl := h l (List.mem_cons_self _ _)
    have hrest := fun x hx => h x (List.mem_cons_of_mem l hx)
    rcases hl.2 with hb | hs
    · rw [parseLines_cons_blank pf l ls rv hb hl.1, ih rv hrest]
      simp only [List.filterMap_cons, recordOf_blank pf l hb]
    · obtain ⟨e, he⟩ := Option.isSome_iff_exists.mp hs
      rw [parseLines_cons_record pf l ls rv e he hl.1, ih _ hrest]
      simp only [List.filterMap_cons, he, List.append_assoc, List.singleton_append]

/-- C9 (amended): when every line of a historical text is shorter than the 65536 bytes
that the scanner can hold and is either blank or comment only, or a well-formed record
of five tokens, `parseDataFile` returns without error exactly one entry per record
line, in the order of the lines, each entry being the parse of its line, with nothing
sorted and nothing removed; `All` returns the `Date` of each stored entry in the same
order and with the same length, and is empty on a fresh `Information`. -/
theorem parseDataFile_records {F : Type} (pf : List Char → Except NumErrKind F)
    (text : List Char)
    (h : ∀ l ∈ rawLines text, byteLen l < MaxScanTokenSize ∧
      (blankLine l = true ∨ (recordOf pf l).isSome = true)) :
    parseDataFile pf text = .ret ((rawLines text).filterMap (recordOf pf)) none ∧
      (∀ i : Information F, i.All = i.historical.map (fun e => e.Date) ∧
        i.All.length = i.historical.length) ∧
      (New F).All = [] := by
  refine ⟨?_, ?_, rfl⟩
  · unfold parseDataFile
    rw [parseLines_records pf (rawLines text) [] h]
    rfl
  · intro i
    have hall : i.All = i.historical.map (fun e => e.Date) := by
      unfold Information.All
      rw [All_eq_map]
      rfl
    exact ⟨hall, by rw [hall, List.length_map]⟩

/-- Witness of C9: two records given out of date order and a duplicate of the first
one, between comment and blank lines; the three entries come out in line order. -/
theorem parseDataFile_records_witness :
    parseDataFile exactDecimal
        "# header\n41499.0 1 7 1972 11\n\n41317.0 1 1 1972 10 # first\n41499.0 1 7 1972 11\n".toList =
      .ret [{ mjd := (414990, 1), day := 1, month := 7, year := 1972, taiOffset := 11,
              Date := timeDate 1972 6 30 23 59 59 },
            { mjd := (413170, 1), day := 1, month := 1, year := 1972, taiOffset := 10,
              Date := timeDate 1971 12 31 23 59 59 },
            { mjd := (414990, 1), day := 1, month := 7, year := 1972, taiOffset := 11,
              Date := timeDate 1972 6 30 23 59 59 }] none :=
  (parseDataFile_records exactDecimal
    "# header\n41499.0 1 7 1972 11\n\n41317.0 1 1 1972 10 # first\n41499.0 1 7 1972 11\n".toList
    (by decide)).1.trans (by decide)


theorem fieldsGo_replicate_space (n : Nat) (rest : List Char) :
    fieldsGo (List.replicate n ' ' ++ rest) [] = fieldsGo rest [] := by
  induction n with
  | zero => rfl
  | succ n ih =>
    have h2 : isSpace ' ' = true := by decide
    show fieldsGo (' ' :: (List.replicate n ' ' ++ rest)) [] = _
    simp only [fieldsGo, h2, if_true]
    exact ih

theorem takeWhile_replicate_space (n : Nat) (rest : List Char) :
    List.takeWhile (fun c => c != '#') (List.replicate n ' ' ++ rest) =
      List.replicate n ' ' ++ List.takeWhile (fun c => c != '#') rest := by
  induction n with
  | zero => rfl
  | succ n ih =>
    have h1 : (' ' != '#') = true := by decide
    show List.takeWhile (fun c => c != '#') (' ' :: (List.replicate n ' ' ++ rest)) = _
    simp only [List.takeWhile, h1, ih]
    rfl

/-- Counterexample to C9 as stated: the only line of the text is a well-formed record of
five tokens, the first two being 65537 blanks apart, and `parseDataFile` returns no
entry and the error `ErrTooLong`. -/
theorem parseDataFile_records_counterexample :
    recordOf exactDecimal
        ("41317.0 ".toList ++ (List.replicate 65536 ' ' ++ "1 1 1972 10".toList)) =
        some { mjd := (413170, 1), day := 1, month := 1, year := 1972, taiOffset := 10,
               Date := timeDate 1971 12 31 23 59 59 } ∧
      parseDataFile exactDecimal
          ("41317.0 ".toList ++ (List.replicate 65536 ' ' ++ "1 1 1972 10".toList)) =
        .ret [] (some .errTooLong) := by
  constructor
  · have ht : List.takeWhile (fun c => c != '#')
        ("41317.0 ".toList ++ (List.replicate 65536 ' ' ++ "1 1 1972 10".toList)) =
        "41317.0 ".toList ++ (List.replicate 65536 ' ' ++ "1 1 1972 10".toList) := by
      have h0 : ∀ X : List Char, List.takeWhile (fun c => c != '#') ("41317.0 ".toList ++ X) =
          "41317.0 ".toList ++ List.takeWhile (fun c => c != '#') X := fun X => rfl
      have h1 : List.takeWhile (fun c => c != '#') "1 1 1972 10".toList =
          "1 1 1972 10".toList := by decide
      rw [h0, takeWhile_replicate_space, h1]
    have hf : Fields ("41317.0 ".toList ++ (List.replicate 65536 ' ' ++ "1 1 1972 10".toList)) =
        ["41317.0".toList, "1".toList, "1".toList, "1972".toList, "10".toList] := by
      have h0 : ∀ X : List Char, Fields ("41317.0 ".toList ++ X) =
          "41317.0".toList :: fieldsGo X [] := fun X => rfl
      have h1 : fieldsGo "1 1 1972 10".toList [] =
          ["1".toList, "1".toList, "1972".toList, "10".toList] := by decide
      rw [h0, fieldsGo_replicate_space, h1]
    have hi : newLeapSecondDataFromItems exactDecimal
        ["41317.0".toList, "1".toList, "1".toList, "1972".toList, "10".toList] =
        .ok { mjd := (413170, 1), day := 1, month := 1, year := 1972, taiOffset := 10,
              Date := timeDate 1971 12 31 23 59 59 } := by decide
    unfold recordOf newLeapSecondDataFromString
    simp only [ht, hf, hi, List.length_cons, List.length_nil, ne_eq, not_true_eq_false,
      if_false]
  · apply parseDataFile_tooLong
    · simp only [List.mem_append, List.mem_replicate, not_or]
      exact ⟨by decide, fun h => absurd h.2 (by decide), by decide⟩
    · have h1 : byteLen "41317.0 ".toList = 8 := by decide
      have h2 : (' ' : Char).utf8Size = 1 := by decide
      have h3 : byteLen "1 1 1972 10".toList = 11 := by decide
      rw [byteLen_append, byteLen_append, byteLen_replicate, h1, h2, h3]
      decide

/-- C5: what `parseDataFile` does on a line whose number of tokens is not five. The
count is not checked: a line of six tokens is accepted, its sixth token being ignored,
and a line of four tokens makes `items[4]` panic; in neither case is the result the
error `ErrInvalidLeapSecondData`. -/
theorem parseDataFile_tokenCount_unchecked :
    parseDataFile exactDecimal "41317.0 1 1 1972 10 99\n".toList =
        .ret [{ mjd := (413170, 1), day := 1, month := 1, year := 1972, taiOffset := 10,
                Date := timeDate 1971 12 31 23 59 59 }] none ∧
      parseDataFile exactDecimal "41317.0 1 1 1972\n".toList = .panic ∧
      (Fields (stripComment "41317.0 1 1 1972 10 99".toList)).length = 6 ∧
      (Fields (stripComment "41317.0 1 1 1972".toList)).length = 4 := by
  refine ⟨by decide, by decide, by decide, by decide⟩

/-- C10: what `parseDataFile` does when the first malformed record line has a wrong
number of tokens. With a first line of six tokens no error is returned and both lines
give an entry; with a second line of four tokens the call panics instead of returning
an error with the entry of the first line. -/
theorem parseDataFile_firstMalformed_tokenCount :
    parseDataFile exactDecimal "41317.0 1 1 1972 10 99\n41499.0 1 7 1972 11\n".toList =
        .ret [{ mjd := (413170, 1), day := 1, month := 1, year := 1972, taiOffset := 10,
                Date := timeDate 1971 12 31 23 59 59 },
              { mjd := (414990, 1), day := 1, month := 7, year := 1972, taiOffset := 11,
                Date := timeDate 1972 6 30 23 59 59 }] none ∧
      parseDataFile exactDecimal "41317.0 1 1 1972 10\n41499.0 1 7 1972\n".toList = .panic := by
  refine ⟨by decide, by decide⟩

/-- The part of C10 that holds on the code: when the lines before a line are short and
are blank lines or well-formed records, and `newLeapSecondDataFromItems` returns an
error on the tokens of that line, `parseDataFile` returns this error with the entries of
the lines before, whatever follows the line. -/
theorem parseDataFile_firstError {F : Type} (pf : List Char → Except NumErrKind F)
    (pre bad post : List Char) (e : GoError) (hpre : endsLines pre)
    (hlines : ∀ l ∈ rawLines pre, byteLen l < MaxScanTokenSize ∧
      (blankLine l = true ∨ (recordOf pf l).isSome = true))
    (hnl : '\n' ∉ bad) (hpost : startsLine post) (hlen : byteLen bad < MaxScanTokenSize)
    (hbad : newLeapSecondDataFromItems pf (Fields (stripComment (dropCR bad))) = .err e) :
    parseDataFile pf (pre ++ (bad ++ post)) =
      .ret ((rawLines pre).filterMap (recordOf pf)) (some e) := by
  have hne : bad ≠ [] := by
    intro h
    subst h
    exact absurd hbad (by simp [dropCR, stripComment, Fields, fieldsGo, newLeapSecondDataFromItems])
  have hitems : (Fields (stripComment (dropCR bad))).length > 0 := by
    cases hf : Fields (stripComment (dropCR bad)) with
    | nil =>
      rw [hf] at hbad
      exact absurd hbad (by simp [newLeapSecondDataFromItems])
    | cons a as => simp
  have hstep : ∀ rest rv, parseLines pf (bad :: rest) rv = .ret rv (some e) := by
    intro rest rv
    simp only [parseLines, scanToken, if_neg (Nat.not_le.mpr hlen), hitems, if_true, hbad]
  rw [parseDataFile_append pf pre _ hpre, parseLines_records pf (rawLines pre) [] hlines]
  simp only [List.nil_append]
  rcases startsLine_cases post hpost with hp | ⟨r, hp⟩
  · subst hp
    rw [List.append_nil, rawLines_last bad hnl hne, hstep]
  · subst hp
    rw [rawLines_line_feed bad r hnl, hstep]

theorem wrap_msg_ne (c : GoError) (p i : List Char) (hp : p.head? ≠ some 'w') (hne : p ≠ []) :
    GoError.wrap c (p ++ i) ≠ ErrInvalidLeapSecondData := by
  intro h
  unfold ErrInvalidLeapSecondData at h
  injection h with _ hm
  have := congrArg List.head? hm
  cases p with
  | nil => exact hne rfl
  | cons a as =>
    simp only [List.cons_append, List.head?_cons] at this hp
    exact hp (this.trans (by decide))

theorem newLeapSecondDataFromItems_err_ne {F : Type} (pf : List Char → Except NumErrKind F)
    (items : List (List Char)) (e : GoError)
    (h : newLeapSecondDataFromItems pf items = .err e) : e ≠ ErrInvalidLeapSecondData := by
  unfold newLeapSecondDataFromItems at h
  repeat' (split at h)
  all_goals first
    | exact Res.noConfusion h
    | (injection h with h
       rw [← h]
       exact wrap_msg_ne _ _ _ (by decide) (by decide))

theorem parseLines_err_ne {F : Type} (pf : List Char → Except NumErrKind F)
    (ls : List (List Char)) :
    ∀ (rv rv2 : List (leapSecondData F)) (e : GoError),
      parseLines pf ls rv = .ret rv2 (some e) → e ≠ ErrInvalidLeapSecondData := by
  induction ls with
  | nil =>
    intro rv rv2 e h
    simp [parseLines] at h
  | cons l ls ih =>
    intro rv rv2 e h
    unfold parseLines at h
    split at h
    · rename_i e2 hs
      unfold scanToken at hs
      split_ifs at hs
      injection hs with hs
      injection h with _ h
      injection h with h
      rw [← h, ← hs]
      intro hc
      cases hc
    · simp only at h
      split_ifs at h
      · split at h
        · rename_i e2 hi
          injection h with _ h
          injection h with h
          rw [← h]
          exact newLeapSecondDataFromItems_err_ne pf _ e2 hi
        · exact FileRes.noConfusion h
        · exact ih _ _ _ h
      · exact ih _ _ _ h

/-- The error `ErrInvalidLeapSecondData` is never returned by `parseDataFile`. -/
theorem parseDataFile_err_ne {F : Type} (pf : List Char → Except NumErrKind F)
    (text : List Char) (rv : List (leapSecondData F)) (e : GoError)
    (h : parseDataFile pf text = .ret rv (some e)) : e ≠ ErrInvalidLeapSecondData :=
  parseLines_err_ne pf (rawLines text) [] rv e h


/-! ## Field errors of `newLastEntryFromString` -/

theorem digitOf_eq_digitChar (c : Char) (d : Nat) (h : digitOf c = some d) (hd : d < 10) :
    c = digitChar d := by
  unfold digitOf at h
  simp only at h
  split_ifs at h with h1 h2 h3
  · simp only [Option.some.injEq] at h
    have e : 0x30 + d = c.toNat := by omega
    unfold digitChar
    rw [e, Char.ofNat_toNat]
  · simp only [Option.some.injEq] at h
    omega
  · simp only [Option.some.injEq] at h
    omega

theorem parseUintLoop_digits (maxVal : Nat) (s : List Char) :
    ∀ n r, parseUintLoop 10 maxVal ((2 ^ 64 - 1) / 10 + 1) s n = .ok r →
      ∃ ds : List Nat, (∀ d ∈ ds, d < 10) ∧ s = decimalText ds ∧
        r = ds.foldl (fun n d => 10 * n + d) n := by
  induction s with
  | nil =>
    intro n r h
    simp only [parseUintLoop, Except.ok.injEq] at h
    exact ⟨[], by simp, rfl, h.symm⟩
  | cons c cs ih =>
    intro n r h
    unfold parseUintLoop at h
    split at h
    · exact absurd h (by simp)
    · rename_i d hd
      simp only at h
      have h64 : (2 : Nat) ^ 64 = 18446744073709551616 := by norm_num
      have hc : ((2 : Nat) ^ 64 - 1) / 10 + 1 = 1844674407370955162 := by norm_num
      rw [hc, h64] at h
      split_ifs at h with h1 h2 h3
      have hd10 : d < 10 := by omega
      have e1 : (n * 10 % 18446744073709551616 + d) % 18446744073709551616 = 10 * n + d := by
        omega
      rw [e1, ← hc] at h
      obtain ⟨ds, hds, hs, hr⟩ := ih _ r h
      refine ⟨d :: ds, ?_, ?_, ?_⟩
      · intro x hx
        rcases List.mem_cons.mp hx with hx | hx
        · rw [hx]; exact hd10
        · exact hds x hx
      · rw [hs, digitOf_eq_digitChar c d hd hd10]
        rfl
      · rw [hr]
        rfl

theorem ParseUint_ok_isUint16Text (a : List Char) (n : Nat) (h : ParseUint a 10 16 = .ok n) :
    isUint16Text a := by
  have hle := ParseUint_le a 10 16 n h
  unfold ParseUint at h
  split_ifs at h with hne
  split at h
  · rename_i r hr
    simp only [Except.ok.injEq] at h
    obtain ⟨ds, hds, hs, hv⟩ := parseUintLoop_digits _ a 0 r hr
    refine ⟨ds, ?_, hds, ?_, hs⟩
    · intro e
      rw [e] at hs
      exact hne hs
    · have : decimalValue ds = n := by
        unfold decimalValue
        rw [← hv, h]
      rw [this]
      have h16 : (2 : Nat) ^ 16 - 1 = 65535 := by norm_num
      omega
  · exact absurd h (by simp)

theorem ParseUint_error_of_not_isUint16Text (a : List Char) (h : ¬ isUint16Text a) :
    ∃ k, ParseUint a 10 16 = .error (.numError "ParseUint".toList a k) := by
  cases hp : ParseUint a 10 16 with
  | ok n => exact absurd (ParseUint_ok_isUint16Text a n hp) h
  | error e =>
    unfold ParseUint at hp
    split_ifs at hp with hne
    · exact ⟨.errSyntax, by rw [← hp]⟩
    · split at hp
      · exact absurd hp (by simp)
      · rename_i k hk
        exact ⟨k, by rw [← hp]⟩

/-- C11: on a line of three fields whose first field does not write a decimal unsigned
integer fitting in 16 bits, `newLastEntryFromString` returns no record and an error
that names the TAI offset field and carries the text of the field, wrapped around the
`strconv` error for that text, whatever the other two fields are. -/
theorem newLastEntryFromString_offsetError (line a b c : List Char)
    (hsplit : Split '|' line = [a, b, c]) (ha : ¬ isUint16Text a) :
    ∃ k, newLastEntryFromString line =
      .err (.wrap (.numError "ParseUint".toList a k)
        ("parsing TAI offset field containing ".toList ++ a)) := by
  obtain ⟨k, hk⟩ := ParseUint_error_of_not_isUint16Text a ha
  refine ⟨k, ?_⟩
  unfold newLastEntryFromString
  simp only [hsplit, List.length_cons, List.length_nil, ne_eq, not_true_eq_false, if_false,
    List.getElem?_cons_zero, List.getElem?_cons_succ, hk]

theorem not_isUint16Text_of_not_digit (a : List Char) (c : Char) (hc : c ∈ a)
    (hd : isDigit c = false) : ¬ isUint16Text a := by
  rintro ⟨ds, _, hds, _, he⟩
  rw [he] at hc
  obtain ⟨k, hk, hkc⟩ := List.mem_map.mp hc
  rw [← hkc, isDigit_digitChar k (hds k hk)] at hd
  exact absurd hd (by simp)

theorem not_isUint16Text_of_error (a : List Char) (e : GoError)
    (h : ParseUint a 10 16 = .error e) : ¬ isUint16Text a := by
  rintro ⟨ds, hne, hds, hv, he⟩
  rw [he, ParseUint_decimalText ds hne hds hv] at h
  exact absurd h (by simp)

/-- Witness of C11 on the two lines of the test table, `foo` and `-10` as offset, and on
an empty offset and the offset `65536`, with other fields that are not dates. -/
theorem newLastEntryFromString_offsetError_witness :
    (∃ k, newLastEntryFromString "foo|31 December 2016|Not scheduled".toList =
        .err (.wrap (.numError "ParseUint".toList "foo".toList k)
          ("parsing TAI offset field containing ".toList ++ "foo".toList))) ∧
      (∃ k, newLastEntryFromString "-10|31 December 2016|Not scheduled".toList =
        .err (.wrap (.numError "ParseUint".toList "-10".toList k)
          ("parsing TAI offset field containing ".toList ++ "-10".toList))) ∧
      (∃ k, newLastEntryFromString "|x|y".toList =
        .err (.wrap (.numError "ParseUint".toList [] k)
          ("parsing TAI offset field containing ".toList ++ []))) ∧
      (∃ k, newLastEntryFromString "65536||".toList =
        .err (.wrap (.numError "ParseUint".toList "65536".toList k)
          ("parsing TAI offset field containing ".toList ++ "65536".toList))) :=
  ⟨newLastEntryFromString_offsetError _ "foo".toList "31 December 2016".toList
      "Not scheduled".toList (by decide)
      (not_isUint16Text_of_error _ (.numError "ParseUint".toList "foo".toList .errSyntax)
        (by decide)),
   newLastEntryFromString_offsetError _ "-10".toList "31 December 2016".toList
      "Not scheduled".toList (by decide)
      (not_isUint16Text_of_error _ (.numError "ParseUint".toList "-10".toList .errSyntax)
        (by decide)),
   newLastEntryFromString_offsetError _ [] "x".toList "y".toList (by decide)
      (not_isUint16Text_of_error _ (.numError "ParseUint".toList [] .errSyntax) (by decide)),
   newLastEntryFromString_offsetError _ "65536".toList [] [] (by decide)
      (not_isUint16Text_of_error _ (.numError "ParseUint".toList "65536".toList .errRange)
        (by decide))⟩


/-! ## Loading: `loadHistorical`, `loadScheduled`, `Load` -/

theorem fetchDataFileFromEmbedded_ok {F : Type} (pf : List Char → Except NumErrKind F)
    (embedded : List Char) (rv : List (leapSecondData F))
    (h : parseDataFile pf embedded = .ret rv none) :
    fetchDataFileFromEmbedded pf embedded = .ok rv := by
  simp only [fetchDataFileFromEmbedded, fetchDataFileFromReader, h]

/-- C12: in `loadHistorical`, when the network fetch of the historical file returns an
error and `EmbeddedFailover` is set, the stored entries are the ones that
`parseDataFile` returns for the embedded file (which parses without error) and no error
is returned; when `EmbeddedFailover` is not set, the error returned is the error of the
fetch, unchanged. -/
theorem loadHistorical_failover {F : Type} (pf : List Char → Except NumErrKind F)
    (client : List Char → Except GoError (List Char)) (embedded : List Char)
    (i : Information F) (e : GoError)
    (hfetch : fetchDataFileFromURL pf client i.historicalURI = .err e) :
    (i.EmbeddedFailover = true →
        ∀ rv : List (leapSecondData F), parseDataFile pf embedded = .ret rv none →
        i.loadHistorical pf client embedded =
          .done { i with historical := rv } [i.historicalURI] none) ∧
      (i.EmbeddedFailover = false →
        i.loadHistorical pf client embedded =
          .done { i with historical := [] } [i.historicalURI] (some e)) := by
  constructor
  · intro hon rv hemb
    simp only [Information.loadHistorical, hfetch, hon, Bool.not_true, Bool.false_eq_true,
      if_false, fetchDataFileFromEmbedded_ok pf embedded rv hemb]
  · intro hoff
    simp only [Information.loadHistorical, hfetch, hoff, Bool.not_false, if_true]

/-- Witness of C12: the request fails and the embedded file holds one record. -/
theorem loadHistorical_failover_witness :
    ({ New (Nat × Nat) with EmbeddedFailover := true }).loadHistorical exactDecimal
        (fun _ => .error (.errorsNew "connection refused".toList))
        "# leap seconds\n41317.0 1 1 1972 10\n".toList =
      .done { New (Nat × Nat) with
              EmbeddedFailover := true
              historical := [{ mjd := (413170, 1), day := 1, month := 1, year := 1972,
                               taiOffset := 10, Date := timeDate 1971 12 31 23 59 59 }] }
        [DataSourceURL] none ∧
      (New (Nat × Nat)).loadHistorical exactDecimal
        (fun _ => .error (.errorsNew "connection refused".toList))
        "# leap seconds\n41317.0 1 1 1972 10\n".toList =
      .done (New (Nat × Nat)) [DataSourceURL]
        (some (.errorsNew "connection refused".toList)) :=
  ⟨(loadHistorical_failover exactDecimal
      (fun _ => .error (.errorsNew "connection refused".toList))
      "# leap seconds\n41317.0 1 1 1972 10\n".toList
      { New (Nat × Nat) with EmbeddedFailover := true }
      (.errorsNew "connection refused".toList) (by decide)).1 rfl
      [{ mjd := (413170, 1), day := 1, month := 1, year := 1972, taiOffset := 10,
         Date := timeDate 1971 12 31 23 59 59 }] (by decide),
   (loadHistorical_failover exactDecimal
      (fun _ => .error (.errorsNew "connection refused".toList))
      "# leap seconds\n41317.0 1 1 1972 10\n".toList (New (Nat × Nat))
      (.errorsNew "connection refused".toList) (by decide)).2 rfl⟩


theorem loadHistorical_frame {F : Type} (pf : List Char → Except NumErrKind F)
    (client : List Char → Except GoError (List Char)) (embedded : List Char)
    (i i1 : Information F) (fetched : List (List Char)) (err : Option GoError)
    (h : i.loadHistorical pf client embedded = .done i1 fetched err) :
    fetched = [i.historicalURI] ∧ i1.scheduled = i.scheduled ∧
      i1.scheduledURI = i.scheduledURI ∧ i1.historicalURI = i.historicalURI ∧
      i1.EmbeddedFailover = i.EmbeddedFailover ∧ (err ≠ none → i1.historical = []) := by
  unfold Information.loadHistorical at h
  split at h
  · exact Run.noConfusion h
  · injection h with h1 h2 h3
    subst h1 h2 h3
    exact ⟨rfl, rfl, rfl, rfl, rfl, fun hc => absurd rfl hc⟩
  · split_ifs at h
    · injection h with h1 h2 h3
      subst h1 h2 h3
      exact ⟨rfl, rfl, rfl, rfl, rfl, fun _ => rfl⟩
    · split at h
      · exact Run.noConfusion h
      · injection h with h1 h2 h3
        subst h1 h2 h3
        exact ⟨rfl, rfl, rfl, rfl, rfl, fun hc => absurd rfl hc⟩
      · injection h with h1 h2 h3
        subst h1 h2 h3
        exact ⟨rfl, rfl, rfl, rfl, rfl, fun _ => rfl⟩

/-- C13: for every snapshot and every behaviour of the two fetches: when the historical
load returns an error (after the failover, if set), `Load` returns that error, only the
historical URL was fetched and the scheduled record is unchanged; when the historical
load succeeds and the scheduled fetch returns an error, `Load` returns the scheduled
error, the historical entries are the newly loaded ones and the scheduled record keeps
its previous value. -/
theorem Load_errors {F : Type} (pf : List Char → Except NumErrKind F)
    (client : List Char → Except GoError (List Char)) (embedded : List Char)
    (i i1 : Information F) (fetched : List (List Char)) (err : Option GoError)
    (hhist : i.loadHistorical pf client embedded = .done i1 fetched err) :
    (∀ e, err = some e →
        i.Load pf client embedded = .done i1 [i.historicalURI] (some e) ∧
          i1.scheduled = i.scheduled) ∧
      (∀ e, err = none → fetchScheduledFromURL client i.scheduledURI = .err e →
        i.Load pf client embedded =
            .done i1 [i.historicalURI, i.scheduledURI] (some e) ∧
          i1.scheduled = i.scheduled) := by
  obtain ⟨hf, hs, hsu, _, _, _⟩ := loadHistorical_frame pf client embedded i i1 fetched err hhist
  subst hf
  constructor
  · intro e he
    subst he
    refine ⟨?_, hs⟩
    simp only [Information.Load, hhist]
  · intro e he hsched
    subst he
    refine ⟨?_, hs⟩
    simp only [Information.Load, hhist, Information.loadScheduled, hsu, hsched]
    rfl

/-- Witness of C13: the historical file is fetched and parsed, the scheduled fetch
fails; the new entry is stored and the scheduled record is the one of `New`. -/
theorem Load_errors_witness :
    (New (Nat × Nat)).Load exactDecimal
        (fun url => if url = DataSourceURL then .ok "41317.0 1 1 1972 10\n".toList
          else .error (.errorsNew "timeout".toList)) [] =
      .done { New (Nat × Nat) with
              historical := [{ mjd := (413170, 1), day := 1, month := 1, year := 1972,
                               taiOffset := 10, Date := timeDate 1971 12 31 23 59 59 }] }
        [DataSourceURL, ScheduledURL] (some (.errorsNew "timeout".toList)) :=
  ((Load_errors exactDecimal
      (fun url => if url = DataSourceURL then .ok "41317.0 1 1 1972 10\n".toList
        else .error (.errorsNew "timeout".toList)) [] (New (Nat × Nat))
      { New (Nat × Nat) with
        historical := [{ mjd := (413170, 1), day := 1, month := 1, year := 1972,
                         taiOffset := 10, Date := timeDate 1971 12 31 23 59 59 }] }
      [DataSourceURL] none (by decide)).2 (.errorsNew "timeout".toList) rfl (by decide)).1

/-- C19: with `EmbeddedFailover` not set, when `loadHistorical` returns an error the
entries loaded before are gone: the historical sequence of the snapshot is empty and
`All` returns no date, whatever the snapshot held before the call. -/
theorem loadHistorical_error_discards {F : Type} (pf : List Char → Except NumErrKind F)
    (client : List Char → Except GoError (List Char)) (embedded : List Char)
    (i i1 : Information F) (fetched : List (List Char)) (e : GoError)
    (hoff : i.EmbeddedFailover = false)
    (h : i.loadHistorical pf client embedded = .done i1 fetched (some e)) :
    i1.historical = [] ∧ i1.All = [] := by
  unfold Information.loadHistorical at h
  simp only [hoff, Bool.not_false, if_true] at h
  split at h
  · exact Run.noConfusion h
  · injection h with _ _ h3
    exact absurd h3 (by simp)
  · injection h with h1 _ _
    subst h1
    exact ⟨rfl, rfl⟩

/-- Witness of C19: a snapshot that holds one entry, then a fetch that fails. -/
theorem loadHistorical_error_discards_witness :
    ({ New (Nat × Nat) with
        historical := [{ mjd := (413170, 1), day := 1, month := 1, year := 1972,
                         taiOffset := 10, Date := timeDate 1971 12 31 23 59 59 }] }).loadHistorical
        exactDecimal (fun _ => .error (.errorsNew "timeout".toList)) [] =
      .done (New (Nat × Nat)) [DataSourceURL] (some (.errorsNew "timeout".toList)) ∧
      (New (Nat × Nat)).historical = [] ∧ (New (Nat × Nat)).All = [] :=
  ⟨by decide,
   loadHistorical_error_discards exactDecimal (fun _ => .error (.errorsNew "timeout".toList)) []
     { New (Nat × Nat) with
       historical := [{ mjd := (413170, 1), day := 1, month := 1, year := 1972,
                        taiOffset := 10, Date := timeDate 1971 12 31 23 59 59 }] }
     (New (Nat × Nat)) [DataSourceURL] (.errorsNew "timeout".toList) rfl (by decide)⟩

/-- C20: with `EmbeddedFailover` set, when the network fetch delivers a body and
`parseDataFile` returns an error on it, `loadHistorical` falls back to the embedded file:
the stored entries are the ones parsed from the embedded file (which parses without
error), none of the entries parsed from the body is kept, and no error is returned. -/
theorem loadHistorical_failover_parseError {F : Type} (pf : List Char → Except NumErrKind F)
    (client : List Char → Except GoError (List Char)) (embedded body : List Char)
    (i : Information F) (read rv : List (leapSecondData F)) (e : GoError)
    (hon : i.EmbeddedFailover = true) (hbody : client i.historicalURI = .ok body)
    (hparse : parseDataFile pf body = .ret read (some e))
    (hemb : parseDataFile pf embedded = .ret rv none) :
    i.loadHistorical pf client embedded =
      .done { i with historical := rv } [i.historicalURI] none := by
  have hfetch : fetchDataFileFromURL pf client i.historicalURI = .err e := by
    simp only [fetchDataFileFromURL, hbody, fetchDataFileFromReader, hparse]
  simp only [Information.loadHistorical, hfetch, hon, Bool.not_true, Bool.false_eq_true,
    if_false, fetchDataFileFromEmbedded_ok pf embedded rv hemb]

/-- Witness of C20: the body holds a record and then a line whose day is not a number;
the embedded file holds another record, which is the one stored. -/
theorem loadHistorical_failover_parseError_witness :
    parseDataFile exactDecimal "41317.0 1 1 1972 10\n41499.0 x 7 1972 11\n".toList =
        .ret [{ mjd := (413170, 1), day := 1, month := 1, year := 1972, taiOffset := 10,
                Date := timeDate 1971 12 31 23 59 59 }]
          (some (.wrap (.numError "ParseUint".toList "x".toList .errSyntax)
            "parsing day field containing x".toList)) ∧
      ({ New (Nat × Nat) with EmbeddedFailover := true }).loadHistorical exactDecimal
        (fun _ => .ok "41317.0 1 1 1972 10\n41499.0 x 7 1972 11\n".toList)
        "41499.0 1 7 1972 11\n".toList =
      .done { New (Nat × Nat) with
              EmbeddedFailover := true
              historical := [{ mjd := (414990, 1), day := 1, month := 7, year := 1972,
                               taiOffset := 11, Date := timeDate 1972 6 30 23 59 59 }] }
        [DataSourceURL] none :=
  ⟨by decide,
   loadHistorical_failover_parseError exactDecimal
     (fun _ => .ok "41317.0 1 1 1972 10\n41499.0 x 7 1972 11\n".toList)
     "41499.0 1 7 1972 11\n".toList "41317.0 1 1 1972 10\n41499.0 x 7 1972 11\n".toList
     { New (Nat × Nat) with EmbeddedFailover := true }
     [{ mjd := (413170, 1), day := 1, month := 1, year := 1972, taiOffset := 10,
        Date := timeDate 1971 12 31 23 59 59 }]
     [{ mjd := (414990, 1), day := 1, month := 7, year := 1972, taiOffset := 11,
        Date := timeDate 1972 6 30 23 59 59 }]
     (.wrap (.numError "ParseUint".toList "x".toList .errSyntax)
       "parsing day field containing x".toList)
     rfl rfl (by decide) (by decide)⟩


/-! ## The scheduled body: `parseScheduled` -/

theorem dropCR_eq_self (l : List Char) (h : l.getLast? ≠ some '\r') : dropCR l = l := by
  induction l with
  | nil => rfl
  | cons c cs ih =>
    cases cs with
    | nil =>
      have hc : c ≠ '\r' := by
        intro e
        apply h
        rw [e]
        rfl
      simp only [dropCR, if_neg hc]
    | cons d ds =>
      have h2 : (d :: ds).getLast? ≠ some '\r' := by
        simpa [List.getLast?_cons_cons] using h
      simp only [dropCR]
      rw [ih h2]

/-- C16 (amended): `parseScheduled` looks only at the first line of the body: for every
line `l` without line feed and shorter than the 65536 bytes that the scanner can hold,
and every text `r` after it, `parseScheduled (l ++ "\n" ++ r)` is
`newLastEntryFromString` of `l` without one carriage return at its end, hence of `l`
itself when `l` does not end with a carriage return; on the empty body it fails with
`ErrInvalidScheduledEntry`. -/
theorem parseScheduled_firstLine (l r : List Char) (hnl : '\n' ∉ l)
    (hlen : byteLen l < MaxScanTokenSize) :
    parseScheduled (l ++ '\n' :: r) = newLastEntryFromString (dropCR l) ∧
      (l.getLast? ≠ some '\r' → parseScheduled (l ++ '\n' :: r) = newLastEntryFromString l) ∧
      parseScheduled [] = .err ErrInvalidScheduledEntry := by
  have h1 : parseScheduled (l ++ '\n' :: r) = newLastEntryFromString (dropCR l) := by
    simp only [parseScheduled, rawLines_line_feed l r hnl, scanToken,
      if_neg (Nat.not_le.mpr hlen)]
  refine ⟨h1, ?_, by decide⟩
  intro hcr
  rw [h1, dropCR_eq_self l hcr]

/-- Witness of C16: the first line is a scheduled line, the rest of the body is not. -/
theorem parseScheduled_firstLine_witness :
    parseScheduled ("37|31 December 2016|Not scheduled".toList ++ '\n' :: "<html>".toList) =
      .ok { taiOffset := 37, last := timeDate 2016 12 31 0 0 0, next := none } :=
  ((parseScheduled_firstLine "37|31 December 2016|Not scheduled".toList "<html>".toList
      (by decide) (by decide)).2.1 (by decide)).trans (by decide)

theorem parseScheduled_tooLong (l r : List Char) (hnl : '\n' ∉ l)
    (hlen : MaxScanTokenSize ≤ byteLen l) :
    parseScheduled (l ++ '\n' :: r) = .err .errTooLong := by
  simp only [parseScheduled, rawLines_line_feed l r hnl, scanToken, if_pos hlen]

theorem newLastEntryFromString_noBar (l : List Char) (hb : '|' ∉ l) :
    newLastEntryFromString l = .err ErrInvalidScheduledEntry := by
  unfold newLastEntryFromString
  simp only [Split_of_not_mem _ _ hb, List.length_cons, List.length_nil]
  rw [if_pos (by decide)]

/-- Counterexample to C16 as stated: on a first line that ends with a carriage return
`parseScheduled` drops it and returns the record, whereas `newLastEntryFromString` on
the line itself fails on the third field; and on a first line of 65536 characters
`parseScheduled` fails with `ErrTooLong`, whereas `newLastEntryFromString` on the line
fails with `ErrInvalidScheduledEntry`. -/
theorem parseScheduled_firstLine_counterexample :
    parseScheduled ("37|31 December 2016|Not scheduled\r".toList ++ '\n' :: []) =
        .ok { taiOffset := 37, last := timeDate 2016 12 31 0 0 0, next := none } ∧
      newLastEntryFromString "37|31 December 2016|Not scheduled\r".toList =
        .err (.wrap (.timeParseError dateLayout "Not scheduled\r".toList)
          ("parsing next scheduled leap second date containing ".toList ++
            "Not scheduled\r".toList)) ∧
      parseScheduled ("37|31 December 2016|Not scheduled\r".toList ++ '\n' :: []) ≠
        newLastEntryFromString "37|31 December 2016|Not scheduled\r".toList ∧
      parseScheduled (List.replicate 65536 'x' ++ '\n' :: []) = .err .errTooLong ∧
      newLastEntryFromString (List.replicate 65536 'x') = .err ErrInvalidScheduledEntry := by
  have hx : '\n' ∉ List.replicate 65536 'x' := by
    simp only [List.mem_replicate, not_and]
    intro _
    decide
  have hb : '|' ∉ List.replicate 65536 'x' := by
    simp only [List.mem_replicate, not_and]
    intro _
    decide
  have hlen : MaxScanTokenSize ≤ byteLen (List.replicate 65536 'x') := by
    have h2 : ('x' : Char).utf8Size = 1 := by decide
    rw [byteLen_replicate, h2]
    decide
  exact ⟨by decide, by decide, by decide, parseScheduled_tooLong _ [] hx hlen,
    newLastEntryFromString_noBar _ hb⟩

/-! ## Field errors of `newLeapSecondDataFromItems` -/

theorem fieldError_zero_none {F : Type} (pf : List Char → Except NumErrKind F) (t : List Char)
    (h : fieldError pf 0 t = none) : ∃ x, pf t = .ok x := by
  unfold fieldError at h
  simp only at h
  split at h
  · rename_i x hx
    exact ⟨x, hx⟩
  · exact absurd h (by simp)

theorem fieldError_zero_some {F : Type} (pf : List Char → Except NumErrKind F) (t : List Char)
    (e : GoError) (h : fieldError pf 0 t = some e) :
    ∃ k, pf t = .error k ∧ e = .numError "ParseFloat".toList t k := by
  unfold fieldError at h
  simp only at h
  split at h
  · exact absurd h (by simp)
  · rename_i k hk
    simp only [Option.some.injEq] at h
    exact ⟨k, hk, h.symm⟩

theorem fieldError_uint_none (t : List Char) (bits : Nat)
    (h : (match ParseUint t 10 bits with
        | .ok _ => (none : Option GoError)
        | .error e => some e) = none) :
    ∃ n, ParseUint t 10 bits = .ok n := by
  split at h
  · rename_i n hn
    exact ⟨n, hn⟩
  · exact absurd h (by simp)

theorem fieldError_uint_some (t : List Char) (bits : Nat) (e : GoError)
    (h : (match ParseUint t 10 bits with
        | .ok _ => (none : Option GoError)
        | .error e => some e) = some e) :
    ParseUint t 10 bits = .error e := by
  split at h
  · exact absurd h (by simp)
  · rename_i e2 he
    simp only [Option.some.injEq] at h
    rw [he, h]

theorem newLeapSecondDataFromItems_leftmost {F : Type} (pf : List Char → Except NumErrKind F)
    (items : List (List Char)) (k : Nat) (t : List Char) (e : GoError)
    (hlen : items.length = 5) (hk : items[k]? = some t)
    (hleft : ∀ j < k, ∀ s, items[j]? = some s → fieldError pf j s = none)
    (hfail : fieldError pf k t = some e) :
    newLeapSecondDataFromItems pf items =
      .err (.wrap e ("parsing ".toList ++ fieldName k ++ " field containing ".toList ++ t)) := by
  match items, hlen with
  | [t0, t1, t2, t3, t4], _ =>
    have hk5 : k < 5 := by
      by_contra hc
      have : [t0, t1, t2, t3, t4][k]? = none := List.getElem?_eq_none (by simp; omega)
      rw [this] at hk
      exact absurd hk (by simp)
    interval_cases k
    · simp only [List.getElem?_cons_zero, Option.some.injEq] at hk
      subst hk
      obtain ⟨kind, hp, he⟩ := fieldError_zero_some pf _ e hfail
      subst he
      simp only [newLeapSecondDataFromItems, List.getElem?_cons_zero, hp]
      rfl
    · simp only [List.getElem?_cons_succ, List.getElem?_cons_zero, Option.some.injEq] at hk
      subst hk
      obtain ⟨x0, h0⟩ := fieldError_zero_none pf t0 (hleft 0 (by decide) t0 rfl)
      have h1 := fieldError_uint_some _ 8 e hfail
      simp only [newLeapSecondDataFromItems, List.getElem?_cons_zero, List.getElem?_cons_succ,
        h0, h1]
      rfl
    · simp only [List.getElem?_cons_succ, List.getElem?_cons_zero, Option.some.injEq] at hk
      subst hk
      obtain ⟨x0, h0⟩ := fieldError_zero_none pf t0 (hleft 0 (by decide) t0 rfl)
      obtain ⟨x1, h1⟩ := fieldError_uint_none t1 8 (hleft 1 (by decide) t1 rfl)
      have h2 := fieldError_uint_some _ 8 e hfail
      simp only [newLeapSecondDataFromItems, List.getElem?_cons_zero, List.getElem?_cons_succ,
        h0, h1, h2]
      rfl
    · simp only [List.getElem?_cons_succ, List.getElem?_cons_zero, Option.some.injEq] at hk
      subst hk
      obtain ⟨x0, h0⟩ := fieldError_zero_none pf t0 (hleft 0 (by decide) t0 rfl)
      obtain ⟨x1, h1⟩ := fieldError_uint_none t1 8 (hleft 1 (by decide) t1 rfl)
      obtain ⟨x2, h2⟩ := fieldError_uint_none t2 8 (hleft 2 (by decide) t2 rfl)
      have h3 := fieldError_uint_some _ 16 e hfail
      simp only [newLeapSecondDataFromItems, List.getElem?_cons_zero, List.getElem?_cons_succ,
        h0, h1, h2, h3]
      rfl
    · simp only [List.getElem?_cons_succ, List.getElem?_cons_zero, Option.some.injEq] at hk
      subst hk
      obtain ⟨x0, h0⟩ := fieldError_zero_none pf t0 (hleft 0 (by decide) t0 rfl)
      obtain ⟨x1, h1⟩ := fieldError_uint_none t1 8 (hleft 1 (by decide) t1 rfl)
      obtain ⟨x2, h2⟩ := fieldError_uint_none t2 8 (hleft 2 (by decide) t2 rfl)
      obtain ⟨x3, h3⟩ := fieldError_uint_none t3 16 (hleft 3 (by decide) t3 rfl)
      have h4 := fieldError_uint_some _ 16 e hfail
      simp only [newLeapSecondDataFromItems, List.getElem?_cons_zero, List.getElem?_cons_succ,
        h0, h1, h2, h3, h4]
      rfl


/-- C17: on a list of five tokens, when the token of field `k` (in the order MJD, day,
month, year, TAI offset) does not parse at its width and the tokens to its left do,
`newLeapSecondDataFromItems` returns no entry and an error that names field `k` and
carries the text of its token; the tokens to the right of it do not change the result. -/
theorem newLeapSecondDataFromItems_fieldError {F : Type}
    (pf : List Char → Except NumErrKind F) (items : List (List Char)) (k : Nat)
    (t : List Char) (e : GoError) (hlen : items.length = 5) (hk : items[k]? = some t)
    (hleft : ∀ j < k, ∀ s, items[j]? = some s → fieldError pf j s = none)
    (hfail : fieldError pf k t = some e) :
    newLeapSecondDataFromItems pf items =
        .err (.wrap e
          ("parsing ".toList ++ fieldName k ++ " field containing ".toList ++ t)) ∧
      ∀ items2 : List (List Char), items2.length = 5 →
        (∀ j, j ≤ k → items2[j]? = items[j]?) →
        newLeapSecondDataFromItems pf items2 = newLeapSecondDataFromItems pf items := by
  have h1 := newLeapSecondDataFromItems_leftmost pf items k t e hlen hk hleft hfail
  refine ⟨h1, ?_⟩
  intro items2 hlen2 hsame
  rw [h1]
  apply newLeapSecondDataFromItems_leftmost pf items2 k t e hlen2
  · rw [hsame k (Nat.le_refl k), hk]
  · intro j hj s hs
    rw [hsame j (Nat.le_of_lt hj)] at hs
    exact hleft j hj s hs
  · exact hfail

/-- Witness of C17 on a line of the test table: the month is `foo`, and the year after
it is not a number either. -/
theorem newLeapSecondDataFromItems_fieldError_witness :
    newLeapSecondDataFromItems exactDecimal
        ["10.0".toList, "1".toList, "foo".toList, "bar".toList, "10".toList] =
      .err (.wrap (.numError "ParseUint".toList "foo".toList .errSyntax)
        ("parsing ".toList ++ fieldName 2 ++ " field containing ".toList ++ "foo".toList)) ∧
      "parsing ".toList ++ fieldName 2 ++ " field containing ".toList ++ "foo".toList =
        "parsing month field containing foo".toList :=
  ⟨(newLeapSecondDataFromItems_fieldError exactDecimal
      ["10.0".toList, "1".toList, "foo".toList, "bar".toList, "10".toList] 2 "foo".toList
      (.numError "ParseUint".toList "foo".toList .errSyntax) (by decide) (by decide)
      (by
        intro j hj s hs
        interval_cases j
        · simp only [List.getElem?_cons_zero, Option.some.injEq] at hs
          subst hs
          decide
        · simp only [List.getElem?_cons_succ, List.getElem?_cons_zero, Option.some.injEq] at hs
          subst hs
          decide)
      (by decide)).1,
   by decide⟩

/-- C18: what `parseDataFile` does on a text whose only line has three tokens that
parse: the three tokens are handed to `newLeapSecondDataFromItems`, `items[3]` is out of
range and the call panics, so that no slice and no error are returned. -/
theorem parseDataFile_panics :
    Fields (stripComment "41317.0 1 1".toList) = ["41317.0".toList, "1".toList, "1".toList] ∧
      ["41317.0".toList, "1".toList, "1".toList][3]? = none ∧
      newLeapSecondDataFromItems exactDecimal ["41317.0".toList, "1".toList, "1".toList] =
        .panic ∧
      parseDataFile exactDecimal "41317.0 1 1\n".toList = .panic := by
  refine ⟨by decide, by decide, by decide, by decide⟩

/-! ## Cause chains of the field errors -/

theorem ParseUint_error_numError (s : List Char) (base bits : Nat) (e : GoError)
    (h : ParseUint s base bits = .error e) : ∃ k, e = .numError "ParseUint".toList s k := by
  unfold ParseUint at h
  split_ifs at h
  · exact ⟨.errSyntax, by injection h with h; exact h.symm⟩
  · split at h
    · exact absurd h (by simp)
    · rename_i k _
      exact ⟨k, by injection h with h; exact h.symm⟩

theorem timeParse_error (s : List Char) (e : GoError) (h : timeParse s = .error e) :
    e = .timeParseError dateLayout s := by
  unfold timeParse at h
  split at h
  · injection h with h; exact h.symm
  · split_ifs at h
    injection h with h; exact h.symm

/-! ## Order of the two dates of a scheduled line -/

theorem timeDate_eq_dayNumber (y m d : Nat) (h1 : 1 ≤ m) (h2 : m ≤ 12) :
    timeDate y m d 0 0 0 = dayNumber y m d * 86400 := by
  interval_cases m <;> simp [timeDate, dayNumber, daysBefore]

theorem isLeap_iff (y : Nat) :
    isLeap (y : Int) = true ↔ (y % 4 = 0 ∧ (y % 100 ≠ 0 ∨ y % 400 = 0)) := by
  simp only [isLeap, Bool.and_eq_true, Bool.or_eq_true, beq_iff_eq, bne_iff_ne, ne_eq]
  omega

theorem daysSinceEpoch_succ (y : Nat) :
    daysSinceEpoch ((y + 1 : Nat) : Int) =
      daysSinceEpoch y + 365 + (if isLeap (y : Int) = true then 1 else 0) := by
  by_cases hl : isLeap (y : Int) = true
  · have := (isLeap_iff y).mp hl
    simp only [hl, if_true, daysSinceEpoch]
    push_cast
    omega
  · have hn : ¬ (y % 4 = 0 ∧ (y % 100 ≠ 0 ∨ y % 400 = 0)) := fun e => hl ((isLeap_iff y).mpr e)
    simp only [hl, if_false, daysSinceEpoch]
    push_cast
    omega

theorem daysSinceEpoch_mono (y y2 : Nat) (h : y ≤ y2) :
    daysSinceEpoch (y : Int) ≤ daysSinceEpoch (y2 : Int) := by
  simp only [daysSinceEpoch]
  omega

theorem dayNumber_bounds (y m d : Nat) (h1 : 1 ≤ m) (h2 : m ≤ 12) (hd1 : 1 ≤ d)
    (hd : d ≤ monthDays y m) :
    daysSinceEpoch y ≤ dayNumber y m d ∧
      dayNumber y m d < daysSinceEpoch ((y + 1 : Nat) : Int) := by
  rw [daysSinceEpoch_succ]
  by_cases hl : isLeap (y : Int) = true
  · have hn := (isLeap_iff y).mp hl
    interval_cases m <;> simp [dayNumber, daysBefore, monthDays, hl, hn] at hd ⊢ <;> omega
  · have hn : ¬ (y % 4 = 0 ∧ (y % 100 ≠ 0 ∨ y % 400 = 0)) := fun e => hl ((isLeap_iff y).mpr e)
    interval_cases m <;> simp [dayNumber, daysBefore, monthDays, hl, hn] at hd ⊢ <;> omega

theorem dayNumber_month_lt (y m d m2 d2 : Nat) (h1 : 1 ≤ m) (hm : m < m2) (h2 : m2 ≤ 12)
    (hd : d ≤ monthDays y m) (hd2 : 1 ≤ d2) :
    dayNumber y m d < dayNumber y m2 d2 := by
  have hm11 : m ≤ 11 := by omega
  by_cases hl : isLeap (y : Int) = true
  · have hn := (isLeap_iff y).mp hl
    interval_cases m <;> interval_cases m2 <;>
      simp [dayNumber, daysBefore, monthDays, hl, hn] at hd ⊢ <;> omega
  · have hn : ¬ (y % 4 = 0 ∧ (y % 100 ≠ 0 ∨ y % 400 = 0)) := fun e => hl ((isLeap_iff y).mpr e)
    interval_cases m <;> interval_cases m2 <;>
      simp [dayNumber, daysBefore, monthDays, hl, hn] at hd ⊢ <;> omega


theorem dayNumber_lt_of_dateBefore (y m d y2 m2 d2 : Nat) (h1 : 1 ≤ m) (h2 : m ≤ 12)
    (hd1 : 1 ≤ d) (hd : d ≤ monthDays y m) (g1 : 1 ≤ m2) (g2 : m2 ≤ 12) (gd1 : 1 ≤ d2)
    (gd : d2 ≤ monthDays y2 m2) (hlt : dateBefore (y, m, d) (y2, m2, d2)) :
    dayNumber y m d < dayNumber y2 m2 d2 := by
  rcases hlt with hy | ⟨hy, hm | ⟨hm, hdd⟩⟩
  · simp only at hy
    have b1 := (dayNumber_bounds y m d h1 h2 hd1 hd).2
    have b2 := (dayNumber_bounds y2 m2 d2 g1 g2 gd1 gd).1
    have b3 := daysSinceEpoch_mono (y + 1) y2 hy
    omega
  · simp only at hy hm
    subst hy
    exact dayNumber_month_lt y m d m2 d2 h1 hm g2 hd gd1
  · simp only at hy hm hdd
    subst hy
    subst hm
    simp only [dayNumber]
    omega

theorem dateBefore_trichotomy (a b : Nat × Nat × Nat) :
    dateBefore a b ∨ a = b ∨ dateBefore b a := by
  obtain ⟨y, m, d⟩ := a
  obtain ⟨y2, m2, d2⟩ := b
  simp only [dateBefore, Prod.mk.injEq]
  omega

theorem dayNumber_lt_iff (y m d y2 m2 d2 : Nat) (h1 : 1 ≤ m) (h2 : m ≤ 12)
    (hd1 : 1 ≤ d) (hd : d ≤ monthDays y m) (g1 : 1 ≤ m2) (g2 : m2 ≤ 12) (gd1 : 1 ≤ d2)
    (gd : d2 ≤ monthDays y2 m2) :
    dayNumber y m d < dayNumber y2 m2 d2 ↔ dateBefore (y, m, d) (y2, m2, d2) := by
  constructor
  · intro hlt
    rcases dateBefore_trichotomy (y, m, d) (y2, m2, d2) with h | h | h
    · exact h
    · simp only [Prod.mk.injEq] at h
      obtain ⟨e1, e2, e3⟩ := h
      subst e1 e2 e3
      exact absurd hlt (lt_irrefl _)
    · have := dayNumber_lt_of_dateBefore y2 m2 d2 y m d g1 g2 gd1 gd h1 h2 hd1 hd h
      omega
  · exact dayNumber_lt_of_dateBefore y m d y2 m2 d2 h1 h2 hd1 hd g1 g2 gd1 gd

theorem lookup_index (tab : List (List Char)) :
    ∀ (i : Nat) (v : List Char) (k : Nat) (rest : List Char),
      lookup tab i v = some (k, rest) → i ≤ k ∧ k < i + tab.length := by
  induction tab with
  | nil =>
    intro i v k rest h
    simp [lookup] at h
  | cons name tab ih =>
    intro i v k rest h
    unfold lookup at h
    split at h
    · simp only [Option.some.injEq, Prod.mk.injEq] at h
      simp only [List.length_cons]
      omega
    · have := ih (i + 1) v k rest h
      simp only [List.length_cons]
      omega

theorem parseDateFields_month (s : List Char) (y m d : Nat)
    (h : parseDateFields s = some (y, m, d)) : 1 ≤ m ∧ m ≤ 12 := by
  unfold parseDateFields at h
  split at h
  · split_ifs at h
    simp only at h
    split at h
    · exact absurd h (by simp)
    · split at h
      · exact absurd h (by simp)
      · rename_i mi v3 hlook
        have hidx := lookup_index longMonthNames 0 _ mi v3 hlook
        have hlen : longMonthNames.length = 12 := rfl
        split at h
        · exact absurd h (by simp)
        · split at h
          · split_ifs at h
            simp only [Option.some.injEq, Prod.mk.injEq] at h
            omega
          · exact absurd h (by simp)
  · exact absurd h (by simp)

theorem timeParse_ok (s : List Char) (t : Int) (h : timeParse s = .ok t) :
    ∃ y m d, parseDateFields s = some (y, m, d) ∧ 1 ≤ m ∧ m ≤ 12 ∧ 1 ≤ d ∧
      d ≤ monthDays y m ∧ t = dayNumber y m d * 86400 := by
  unfold timeParse at h
  split at h
  · exact absurd h (by simp)
  · rename_i y m d hp
    obtain ⟨hm1, hm12⟩ := parseDateFields_month s y m d hp
    split_ifs at h with hv
    rw [daysIn_eq_monthDays m y hm1 hm12] at hv
    simp only [Except.ok.injEq] at h
    refine ⟨y, m, d, hp, hm1, hm12, by omega, by omega, ?_⟩
    rw [← h, timeDate_eq_dayNumber y m d hm1 hm12]


theorem list_eq_of_three (l : List (List Char)) (a b c : List Char) (h3 : l.length = 3)
    (h0 : l[0]? = some a) (h1 : l[1]? = some b) (h2 : l[2]? = some c) : l = [a, b, c] := by
  match l, h3 with
  | [x, y, z], _ =>
    simp only [List.getElem?_cons_zero, List.getElem?_cons_succ, Option.some.injEq] at h0 h1 h2
    rw [h0, h1, h2]

theorem newLastEntryFromString_ok_next (line : List Char) (r : lastEntry) (n : Int)
    (h : newLastEntryFromString line = .ok r) (hn : r.next = some n) :
    ∃ a b c, Split '|' line = [a, b, c] ∧ timeParse b = .ok r.last ∧ timeParse c = .ok n := by
  unfold newLastEntryFromString at h
  simp only at h
  split_ifs at h with h3
  have h3b : (Split '|' line).length = 3 := by
    simpa using h3
  split at h
  · rename_i i0 i1 i2 g0 g1 g2
    have hs := list_eq_of_three _ i0 i1 i2 h3b g0 g1 g2
    split at h
    · exact Res.noConfusion h
    · split at h
      · exact Res.noConfusion h
      · rename_i last hlast
        split_ifs at h
        · split at h
          · exact Res.noConfusion h
          · rename_i next hnext
            injection h with h
            subst h
            simp only [Option.some.injEq] at hn
            subst hn
            exact ⟨i0, i1, i2, hs, hlast, hnext⟩
        · injection h with h
          subst h
          exact absurd hn (by simp)
  · exact Res.noConfusion h

/-- Counterexample to C14 as stated: the line `36|31 December 2016|30 June 2015` is
parsed with `next` present, and `next` is before `last`. -/
theorem newLastEntryFromString_next_order_counterexample :
    newLastEntryFromString "36|31 December 2016|30 June 2015".toList =
        .ok { taiOffset := 36, last := timeDate 2016 12 31 0 0 0,
              next := some (timeDate 2015 6 30 0 0 0) } ∧
      ¬ (timeDate 2016 12 31 0 0 0 < timeDate 2015 6 30 0 0 0) ∧
      timeDate 2015 6 30 0 0 0 < timeDate 2016 12 31 0 0 0 := by
  refine ⟨by decide, by decide, by decide⟩


/-- C14 (amended): `newLastEntryFromString` does not compare the two dates of a line.
For every scheduled line that it parses with `next` present, `last` and `next` are the
dates written in the second and third fields, at UTC midnight, both dates of the
calendar, and `next` is strictly after `last` exactly when the date of the third field
is later in the calendar than the date of the second field. -/
theorem newLastEntryFromString_next_order (line : List Char) (r : lastEntry) (n : Int)
    (h : newLastEntryFromString line = .ok r) (hn : r.next = some n) :
    ∃ a b c y m d y2 m2 d2, Split '|' line = [a, b, c] ∧
      parseDateFields b = some (y, m, d) ∧ parseDateFields c = some (y2, m2, d2) ∧
      (1 ≤ m ∧ m ≤ 12 ∧ 1 ≤ d ∧ d ≤ monthDays y m) ∧
      (1 ≤ m2 ∧ m2 ≤ 12 ∧ 1 ≤ d2 ∧ d2 ≤ monthDays y2 m2) ∧
      r.last = timeDate y m d 0 0 0 ∧ n = timeDate y2 m2 d2 0 0 0 ∧
      (r.last < n ↔ dateBefore (y, m, d) (y2, m2, d2)) := by
  obtain ⟨a, b, c, hs, hl, hx⟩ := newLastEntryFromString_ok_next line r n h hn
  obtain ⟨y, m, d, hp, h1, h2, hd1, hd, ht⟩ := timeParse_ok b r.last hl
  obtain ⟨y2, m2, d2, hp2, g1, g2, gd1, gd, ht2⟩ := timeParse_ok c n hx
  refine ⟨a, b, c, y, m, d, y2, m2, d2, hs, hp, hp2, ⟨h1, h2, hd1, hd⟩, ⟨g1, g2, gd1, gd⟩,
    ?_, ?_, ?_⟩
  · rw [ht, timeDate_eq_dayNumber y m d h1 h2]
  · rw [ht2, timeDate_eq_dayNumber y2 m2 d2 g1 g2]
  · rw [ht, ht2, ← dayNumber_lt_iff y m d y2 m2 d2 h1 h2 hd1 hd g1 g2 gd1 gd]
    constructor
    · intro hlt
      omega
    · intro hlt
      omega

/-- Witness of C14 (amended) on the line `36|30 June 2015|31 December 2016`. -/
theorem newLastEntryFromString_next_order_witness :
    newLastEntryFromString "36|30 June 2015|31 December 2016".toList =
        .ok { taiOffset := 36, last := timeDate 2015 6 30 0 0 0,
              next := some (timeDate 2016 12 31 0 0 0) } ∧
      ∃ a b c y m d y2 m2 d2,
        Split '|' "36|30 June 2015|31 December 2016".toList = [a, b, c] ∧
        parseDateFields b = some (y, m, d) ∧ parseDateFields c = some (y2, m2, d2) ∧
        (1 ≤ m ∧ m ≤ 12 ∧ 1 ≤ d ∧ d ≤ monthDays y m) ∧
        (1 ≤ m2 ∧ m2 ≤ 12 ∧ 1 ≤ d2 ∧ d2 ≤ monthDays y2 m2) ∧
        timeDate 2015 6 30 0 0 0 = timeDate y m d 0 0 0 ∧
        timeDate 2016 12 31 0 0 0 = timeDate y2 m2 d2 0 0 0 ∧
        (timeDate 2015 6 30 0 0 0 < timeDate 2016 12 31 0 0 0 ↔
          dateBefore (y, m, d) (y2, m2, d2)) :=
  ⟨by decide,
   newLastEntryFromString_next_order "36|30 June 2015|31 December 2016".toList
     { taiOffset := 36, last := timeDate 2015 6 30 0 0 0,
       next := some (timeDate 2016 12 31 0 0 0) }
     (timeDate 2016 12 31 0 0 0) (by decide) rfl⟩


/-! ## Cause chains of the field errors -/

theorem causeChain_wrap_numError (func num msg : List Char) (kind : NumErrKind) :
    causeChain (.wrap (.numError func num kind) msg) =
        [.error (.wrap (.numError func num kind) msg),
         .withMessage (.numError func num kind) msg,
         .error (.numError func num kind), .error kind.err] ∧
      ChainNode.error ErrInvalidScheduledEntry ∉
        causeChain (.wrap (.numError func num kind) msg) ∧
      ChainNode.error ErrInvalidLeapSecondData ∉
        causeChain (.wrap (.numError func num kind) msg) ∧
      ChainNode.error ErrParsing ∉ causeChain (.wrap (.numError func num kind) msg) := by
  refine ⟨rfl, ?_, ?_, ?_⟩
  · cases kind <;>
      simp [causeChain, ErrInvalidScheduledEntry, ErrParsing, NumErrKind.err, ErrSyntax, ErrRange]
  · cases kind <;>
      simp [causeChain, ErrInvalidLeapSecondData, ErrParsing, NumErrKind.err, ErrSyntax, ErrRange]
  · cases kind
    · simp only [causeChain, ErrParsing, NumErrKind.err, ErrSyntax, List.mem_cons,
        List.mem_singleton, ChainNode.error.injEq, List.not_mem_nil, or_false, not_or]
      exact ⟨by simp, by simp, by simp, by decide⟩
    · simp only [causeChain, ErrParsing, NumErrKind.err, ErrRange, List.mem_cons,
        List.mem_singleton, ChainNode.error.injEq, List.not_mem_nil, or_false, not_or]
      exact ⟨by simp, by simp, by simp, by decide⟩

theorem causeChain_wrap_timeParseError (layout value msg : List Char) :
    causeChain (.wrap (.timeParseError layout value) msg) =
        [.error (.wrap (.timeParseError layout value) msg),
         .withMessage (.timeParseError layout value) msg,
         .error (.timeParseError layout value)] ∧
      ChainNode.error ErrInvalidScheduledEntry ∉
        causeChain (.wrap (.timeParseError layout value) msg) ∧
      ChainNode.error ErrParsing ∉ causeChain (.wrap (.timeParseError layout value) msg) := by
  refine ⟨rfl, ?_, ?_⟩
  · simp [causeChain, ErrInvalidScheduledEntry, ErrParsing]
  · simp [causeChain, ErrParsing]

theorem newLastEntryFromString_err_cases (line a b c : List Char) (e : GoError)
    (hs : Split '|' line = [a, b, c]) (h : newLastEntryFromString line = .err e) :
    (∃ kind, e = .wrap (.numError "ParseUint".toList a kind)
        ("parsing TAI offset field containing ".toList ++ a)) ∨
      e = .wrap (.timeParseError dateLayout b)
        ("parsing last leap second date containing ".toList ++ b) ∨
      e = .wrap (.timeParseError dateLayout c)
        ("parsing next scheduled leap second date containing ".toList ++ c) := by
  unfold newLastEntryFromString at h
  simp only [hs, List.length_cons, List.length_nil, ne_eq, not_true_eq_false, if_false,
    List.getElem?_cons_zero, List.getElem?_cons_succ] at h
  split at h
  · rename_i e0 he0
    obtain ⟨k, hk⟩ := ParseUint_error_numError _ _ _ _ he0
    injection h with h
    left
    exact ⟨k, by rw [← h, hk]⟩
  · split at h
    · rename_i e1 he1
      injection h with h
      right; left
      rw [← h, timeParse_error _ _ he1]
    · split_ifs at h
      split at h
      · rename_i e2 he2
        injection h with h
        right; right
        rw [← h, timeParse_error _ _ he2]
      · exact Res.noConfusion h


theorem fieldError_uint_of_error (k : Nat) (hk1 : 1 ≤ k) {F : Type}
    (pf : List Char → Except NumErrKind F) (t : List Char) (bits : Nat) (e : GoError)
    (hbits : (k = 1 ∨ k = 2) ∧ bits = 8 ∨ (k = 3 ∨ k = 4) ∧ bits = 16)
    (h : ParseUint t 10 bits = .error e) : fieldError pf k t = some e := by
  rcases hbits with ⟨hk | hk, hb⟩ | ⟨hk | hk, hb⟩ <;> subst hk <;> subst hb <;>
    simp only [fieldError, h]

theorem newLeapSecondDataFromItems_err_cases {F : Type} (pf : List Char → Except NumErrKind F)
    (items : List (List Char)) (e : GoError)
    (h : newLeapSecondDataFromItems pf items = .err e) :
    ∃ (k : Nat) (t func : List Char) (kind : NumErrKind), k < 5 ∧ items[k]? = some t ∧
      fieldError pf k t = some (.numError func t kind) ∧
      e = .wrap (.numError func t kind)
        ("parsing ".toList ++ fieldName k ++ " field containing ".toList ++ t) := by
  unfold newLeapSecondDataFromItems at h
  split at h
  · exact Res.noConfusion h
  rename_i i0 g0
  split at h
  · rename_i kind hp
    injection h with h
    refine ⟨0, i0, "ParseFloat".toList, kind, by decide, g0, ?_, ?_⟩
    · simp only [fieldError, hp]
    · rw [← h]; rfl
  split at h
  · exact Res.noConfusion h
  rename_i i1 g1
  split at h
  · rename_i e1 he1
    obtain ⟨kind, hk⟩ := ParseUint_error_numError _ _ _ _ he1
    subst hk
    injection h with h
    refine ⟨1, i1, "ParseUint".toList, kind, by decide, g1, ?_, ?_⟩
    · exact fieldError_uint_of_error 1 (by decide) pf i1 8 _ (Or.inl ⟨Or.inl rfl, rfl⟩) he1
    · rw [← h]; rfl
  split at h
  · exact Res.noConfusion h
  rename_i i2 g2
  split at h
  · rename_i e2 he2
    obtain ⟨kind, hk⟩ := ParseUint_error_numError _ _ _ _ he2
    subst hk
    injection h with h
    refine ⟨2, i2, "ParseUint".toList, kind, by decide, g2, ?_, ?_⟩
    · exact fieldError_uint_of_error 2 (by decide) pf i2 8 _ (Or.inl ⟨Or.inr rfl, rfl⟩) he2
    · rw [← h]; rfl
  split at h
  · exact Res.noConfusion h
  rename_i i3 g3
  split at h
  · rename_i e3 he3
    obtain ⟨kind, hk⟩ := ParseUint_error_numError _ _ _ _ he3
    subst hk
    injection h with h
    refine ⟨3, i3, "ParseUint".toList, kind, by decide, g3, ?_, ?_⟩
    · exact fieldError_uint_of_error 3 (by decide) pf i3 16 _ (Or.inr ⟨Or.inl rfl, rfl⟩) he3
    · rw [← h]; rfl
  split at h
  · exact Res.noConfusion h
  rename_i i4 g4
  split at h
  · rename_i e4 he4
    obtain ⟨kind, hk⟩ := ParseUint_error_numError _ _ _ _ he4
    subst hk
    injection h with h
    refine ⟨4, i4, "ParseUint".toList, kind, by decide, g4, ?_, ?_⟩
    · exact fieldError_uint_of_error 4 (by decide) pf i4 16 _ (Or.inr ⟨Or.inr rfl, rfl⟩) he4
    · rw [← h]; rfl
  exact Res.noConfusion h


/-- C15 (amended): a field error wraps the error of the library routine that rejected
the field and cannot be classified as a format error through its cause chain. Each
error that `newLastEntryFromString` returns on a line of three fields is the
`strconv.NumError` of the offset or the `time.ParseError` of the last or next date,
wrapped with the message that names the field and carries its raw text, and neither
`ErrInvalidScheduledEntry` nor `ErrParsing` is in its cause chain. Each error that
`newLeapSecondDataFromItems` returns is the `strconv.NumError` of the MJD, day, month,
year or TAI offset token, wrapped with the message that names the field and carries its
raw text, and neither `ErrInvalidLeapSecondData` nor `ErrParsing` is in its cause
chain. -/
theorem fieldError_causeChain {F : Type} (pf : List Char → Except NumErrKind F) :
    (∀ (line a b c : List Char) (e : GoError), Split '|' line = [a, b, c] →
        newLastEntryFromString line = .err e →
        ((∃ kind, e = .wrap (.numError "ParseUint".toList a kind)
              ("parsing TAI offset field containing ".toList ++ a)) ∨
          e = .wrap (.timeParseError dateLayout b)
              ("parsing last leap second date containing ".toList ++ b) ∨
          e = .wrap (.timeParseError dateLayout c)
              ("parsing next scheduled leap second date containing ".toList ++ c)) ∧
        ChainNode.error ErrInvalidScheduledEntry ∉ causeChain e ∧
        ChainNode.error ErrParsing ∉ causeChain e) ∧
      (∀ (items : List (List Char)) (e : GoError),
        newLeapSecondDataFromItems pf items = .err e →
        (∃ (k : Nat) (t func : List Char) (kind : NumErrKind), k < 5 ∧ items[k]? = some t ∧
          fieldError pf k t = some (.numError func t kind) ∧
          e = .wrap (.numError func t kind)
            ("parsing ".toList ++ fieldName k ++ " field containing ".toList ++ t)) ∧
        ChainNode.error ErrInvalidLeapSecondData ∉ causeChain e ∧
        ChainNode.error ErrParsing ∉ causeChain e) := by
  constructor
  · intro line a b c e hs h
    have hc := newLastEntryFromString_err_cases line a b c e hs h
    refine ⟨hc, ?_⟩
    rcases hc with ⟨kind, he⟩ | he | he
    · subst he
      have := causeChain_wrap_numError "ParseUint".toList a
        ("parsing TAI offset field containing ".toList ++ a) kind
      exact ⟨this.2.1, this.2.2.2⟩
    · subst he
      exact (causeChain_wrap_timeParseError _ _ _).2
    · subst he
      exact (causeChain_wrap_timeParseError _ _ _).2
  · intro items e h
    have hc := newLeapSecondDataFromItems_err_cases pf items e h
    refine ⟨hc, ?_⟩
    obtain ⟨k, t, func, kind, _, _, _, he⟩ := hc
    subst he
    have := causeChain_wrap_numError func t
      ("parsing ".toList ++ fieldName k ++ " field containing ".toList ++ t) kind
    exact ⟨this.2.2.1, this.2.2.2⟩

/-- Witness of C15 (amended) on the line `10|foo|Not scheduled` of the test table, whose
last date `foo` is rejected by `time.Parse`. -/
theorem fieldError_causeChain_witness :
    newLastEntryFromString "10|foo|Not scheduled".toList =
        .err (.wrap (.timeParseError dateLayout "foo".toList)
          "parsing last leap second date containing foo".toList) ∧
      ((∃ kind, GoError.wrap (.timeParseError dateLayout "foo".toList)
            "parsing last leap second date containing foo".toList =
          .wrap (.numError "ParseUint".toList "10".toList kind)
            ("parsing TAI offset field containing ".toList ++ "10".toList)) ∨
        GoError.wrap (.timeParseError dateLayout "foo".toList)
            "parsing last leap second date containing foo".toList =
          .wrap (.timeParseError dateLayout "foo".toList)
            ("parsing last leap second date containing ".toList ++ "foo".toList) ∨
        GoError.wrap (.timeParseError dateLayout "foo".toList)
            "parsing last leap second date containing foo".toList =
          .wrap (.timeParseError dateLayout "Not scheduled".toList)
            ("parsing next scheduled leap second date containing ".toList ++
              "Not scheduled".toList)) ∧
      ChainNode.error ErrInvalidScheduledEntry ∉
        causeChain (.wrap (.timeParseError dateLayout "foo".toList)
          "parsing last leap second date containing foo".toList) ∧
      ChainNode.error ErrParsing ∉
        causeChain (.wrap (.timeParseError dateLayout "foo".toList)
          "parsing last leap second date containing foo".toList) :=
  ⟨by decide,
   (fieldError_causeChain exactDecimal).1 "10|foo|Not scheduled".toList "10".toList
     "foo".toList "Not scheduled".toList _ (by decide) (by decide)⟩

/-- Counterexample to C15 as stated: the error of `newLastEntryFromString` for the
offset `foo` and the error of `newLeapSecondDataFromItems` for the MJD `foo` wrap a
`strconv.NumError`; their cause chains end in `strconv.ErrSyntax`, and
`ErrInvalidScheduledEntry`, `ErrInvalidLeapSecondData` and `ErrParsing` are not in
them. -/
theorem fieldError_causeChain_counterexample :
    newLastEntryFromString "foo|31 December 2016|Not scheduled".toList =
        .err (.wrap (.numError "ParseUint".toList "foo".toList .errSyntax)
          "parsing TAI offset field containing foo".toList) ∧
      causeChain (.wrap (.numError "ParseUint".toList "foo".toList .errSyntax)
          "parsing TAI offset field containing foo".toList) =
        [.error (.wrap (.numError "ParseUint".toList "foo".toList .errSyntax)
            "parsing TAI offset field containing foo".toList),
          .withMessage (.numError "ParseUint".toList "foo".toList .errSyntax)
            "parsing TAI offset field containing foo".toList,
          .error (.numError "ParseUint".toList "foo".toList .errSyntax),
          .error ErrSyntax] ∧
      ChainNode.error ErrInvalidScheduledEntry ∉ causeChain
        (.wrap (.numError "ParseUint".toList "foo".toList .errSyntax)
          "parsing TAI offset field containing foo".toList) ∧
      ChainNode.error ErrParsing ∉ causeChain
        (.wrap (.numError "ParseUint".toList "foo".toList .errSyntax)
          "parsing TAI offset field containing foo".toList) ∧
      newLeapSecondDataFromItems exactDecimal
          ["foo".toList, "1".toList, "1".toList, "1972".toList, "10".toList] =
        .err (.wrap (.numError "ParseFloat".toList "foo".toList .errSyntax)
          "parsing MJD field containing foo".toList) ∧
      ChainNode.error ErrInvalidLeapSecondData ∉ causeChain
        (.wrap (.numError "ParseFloat".toList "foo".toList .errSyntax)
          "parsing MJD field containing foo".toList) ∧
      ChainNode.error ErrParsing ∉ causeChain
        (.wrap (.numError "ParseFloat".toList "foo".toList .errSyntax)
          "parsing MJD field containing foo".toList) := by
  refine ⟨by decide, by decide, by decide, by decide, by decide, by decide, by decide⟩

end Leapseconds
